import Mathlib

/-
Verification development for the corenlpy annotation-graph construction and
entity-resolution engine (src/corenlpy/annotated_text.py).

The Python source is shallowly embedded below.  Conventions used throughout:

* Python dicts acting as records (Token / mention / entity / reference /
  sentence dicts) are embedded as Lean structures.  A dict key that may be
  absent is an Option field (none = key absent).  Object back-links that are
  cyclic in Python (token['mentions'], mention['reference'],
  mention['sentence'], sentence['mentions'], sentence['references'],
  constituency parent pointers) cannot be embedded as owning fields of an
  inductive type; where a function reads such a back-link we recompute the
  same information from the document (each place is commented).
* CoreNLP indices are 1-based in the markup; the source subtracts 1
  everywhere, and so do the embedded readers.
* Python list indexing (negative wrap, IndexError), list slices and
  min()/max() over lists are embedded by pyGet / pySlice / pyMinList /
  pyMaxList below.  Fatal Python exceptions (IndexError, ValueError,
  KeyError escaping a try, AttributeError on a missing markup element)
  become Except.error values.
* Python floats (AIDA disambiguation scores, Jaccard scores) are embedded
  as rationals; the embedded code only adds, divides and compares them.
* The unboundedly-recursive helpers (collect_descendents, the offset scan
  of _find_or_create_mention_by_offset_range, _get_token_after) take an
  explicit fuel argument chosen at each call site to dominate every
  terminating run of the source; fuel exhaustion corresponds to a run on
  which the Python source would not terminate.
-/

/-! ## Python container helpers -/

/-- Python list indexing l[i]: a negative index wraps from the end, an index
out of range is an IndexError (modelled as none). -/
def pyGet (l : List α) (i : Int) : Option α :=
  if 0 ≤ i then l.get? i.toNat
  else if 0 ≤ (l.length : Int) + i then l.get? ((l.length : Int) + i).toNat
  else none

/-- Clamp one bound of a Python slice into [0, n], wrapping negatives. -/
def pySliceIndex (n : Nat) (i : Int) : Nat :=
  if i < 0 then (max 0 ((n : Int) + i)).toNat else min i.toNat n

/-- Python slice l[a:b] (never raises). -/
def pySlice (l : List α) (a b : Int) : List α :=
  (l.take (pySliceIndex l.length b)).drop (pySliceIndex l.length a)

/-- Python min() over a list of ints; min([]) raises ValueError (none). -/
def pyMinList (l : List Int) : Option Int :=
  match l with
  | [] => none
  | x :: xs => some (xs.foldl min x)

/-- Python max() over a list of ints; max([]) raises ValueError (none). -/
def pyMaxList (l : List Int) : Option Int :=
  match l with
  | [] => none
  | x :: xs => some (xs.foldl max x)

/-! ## Data model

Token dicts are built by AnnotatedText._read_tokens (annotated_text.py
890-930).  Every token is created with the keys word, lemma, pos, ner,
character offsets, speaker, and with 'children': [], 'parents': [],
'mentions': [] present from the start; 'parents'/'children' are Option
fields because find_head tests key presence ('parents' not in token).
The parents/children edge lists hold (relation, token id) pairs: the
source stores the partner Token object itself, but the only reads of the
partner that the claims touch go through its id, and the per-sentence
dependency structure is additionally embedded as an id-indexed graph
(DepGraph below), mirroring design note "arena-style storage".
The 'mentions' back-link list is cyclic and is recomputed from the
document where it is read (mentions_of_token).  The source key 'lemma' is
spelled lemma_ because lemma is a Lean keyword. -/

structure Tok where
  id : Int
  sentence_id : Int
  word : String
  lemma_ : String
  pos : String
  ner : Option String
  character_offset_begin : Int
  character_offset_end : Int
  speaker : Option String
  parents : Option (List (String × Int))
  children : Option (List (String × Int))
  deriving DecidableEq, Repr

/-- Mention / entity dicts.  Coreference mentions are created with
sentence_id, tokens, head (annotated_text.py 545-549); entity dicts with
tokens, sentence_id (834-837) and head (848); start/end are written later
by _link_references (412-414) or at creation for AIDA-synthesized mentions
(330-337); kbIdentifier/disambiguationScore/types are written by
_link_aida_mention (235-237).  The source key 'end' is named stop here.
The mention['reference'] and mention['sentence'] back-links are cyclic and
not stored. -/
structure Mention where
  sentence_id : Int
  tokens : List Tok
  head : Option Tok
  start : Option Int
  stop : Option Int
  kbIdentifier : Option String
  disambiguationScore : Option ℚ
  types : Option (List String)
  deriving DecidableEq, Repr

/-- Reference dicts (normalized coreference chains), annotated_text.py
530-533, 511-515, 338-342.  kbIdentifier/types are written by
_link_aida_reference (193-200). -/
structure Reference where
  id : Int
  mentions : List Mention
  representative : Mention
  kbIdentifier : Option String
  types : Option (List String)
  deriving DecidableEq, Repr

/-! ## 4.6 Head finding: AnnotatedText.find_head (annotated_text.py 856-887) -/

/-- Python 2 comparison of a str against a Token dict, as evaluated by
`t[0] in tokens` at line 877: t[0] is the *relation label* string of a
parent edge, and `in` compares it with == against each Token dict in the
span, which is always False (a str never equals a dict). -/
def pyStrEqToken (_r : String) (_t : Tok) : Bool := false

/-- find_head loop body (lines 867-884).  The first test reproduces
`'parents' not in token and 'children' not in token` (line 871); the
KeyError branch of the try (lines 876-880) fires when 'parents' is absent
and leaves head unchanged; otherwise the `any` of line 877 is evaluated
(always false, see pyStrEqToken) and the else clause assigns head = token
with no break, so later tokens overwrite earlier ones. -/
def find_head_step (tokens : List Tok) (head : Option Tok) (token : Tok) : Option Tok :=
  if token.parents = none ∧ token.children = none then head
  else
    match token.parents with
    | none => head
    | some ps =>
      if ps.any (fun p => tokens.any (fun t => pyStrEqToken p.1 t)) then head
      else some token

/-- AnnotatedText.find_head (annotated_text.py 856-887): a single-token
span's head is the token itself; otherwise the loop above runs over the
span and may return none (empty span). -/
def find_head (tokens : List Tok) : Option Tok :=
  if tokens.length = 1 then tokens.head?
  else tokens.foldl (find_head_step tokens) none

/-! ## Jaccard coverage and best-overlap selection
(AnnotatedText._get_coverage_score, _find_best_mention_overlap,
annotated_text.py 240-280) -/

/-- AnnotatedText._get_coverage_score (annotated_text.py 268-280):
(min end - max start) / float(max end - min start).  Python float division
is embedded as rational division; the source raises ZeroDivisionError when
the union is empty, which no claim exercises (Lean division by zero yields
0 there). -/
def get_coverage_score (range1 range2 : Int × Int) : ℚ :=
  let intersection_start := max range1.1 range2.1
  let intersection_end := min range1.2 range2.2
  let intersection_size := intersection_end - intersection_start
  let union_start := min range1.1 range2.1
  let union_end := max range1.2 range2.2
  let union_size := union_end - union_start
  (intersection_size : ℚ) / (union_size : ℚ)

/-- Character offset range of a mention (annotated_text.py 249-252):
first token's begin offset, last token's end offset; none models the
IndexError raised on a mention with no tokens. -/
def mention_range (m : Mention) : Option (Int × Int) := do
  let t0 ← m.tokens.head?
  let tl ← m.tokens.getLast?
  pure (t0.character_offset_begin, tl.character_offset_end)

/-- AnnotatedText._find_best_mention_overlap (annotated_text.py 240-265):
rate each mention's offset range against the desired range with
get_coverage_score, then `sorted(zip(coverage_scores, mentions),
reverse=True)[0]`, i.e. a mention of maximal score wins.  When two scores
are equal, Python 2 falls back to comparing the mention dicts themselves,
an unspecified order; the embedding keeps the first mention of maximal
score, and no theorem below depends on an equal-score tie. -/
def find_best_mention_overlap (mentions : List Mention) (start stop : Int) : Option Mention :=
  let desired_range := (start, stop)
  match mentions.mapM
      (fun m => (mention_range m).map (fun r => (get_coverage_score r desired_range, m))) with
  | none => none
  | some scored =>
    match scored with
    | [] => none
    | x :: xs => some (xs.foldl (fun best p => if best.1 < p.1 then p else best) x).2

/-! ## Majority-vote resolution
(AnnotatedText._link_aida_reference, annotated_text.py 153-203) -/

/-- Tally of (kbid, vote count, summed confidence) across a reference's
mentions, modelling kbid_counter and kbid_score_tally (annotated_text.py
157-165) together.  Entries appear in first-vote order; Python 2 dict
iteration order is arbitrary, and nothing below depends on the order of
the entries, only on their multiset. -/
def tally_votes (votes : List (String × ℚ)) : List (String × Nat × ℚ) :=
  votes.foldl
    (fun acc kv =>
      if acc.any (fun e => e.1 = kv.1) then
        acc.map (fun e => if e.1 = kv.1 then (e.1, e.2.1 + 1, e.2.2 + kv.2) else e)
      else acc ++ [(kv.1, 1, kv.2)])
    []

/-- Winning-kbid choice of AnnotatedText._link_aida_reference
(annotated_text.py 167-192): kbids_by_popularity = most_common() (only its
top count majority_num_votes is consumed); majority_vote_kbids = kbids
whose count equals the top count; then
`sorted([(score, kbid) ...], key=lambda x: x[0])` sorts the tied kbids by
summed confidence score ASCENDING and `score_tallied_kbids[0][1]` takes
the one with the SMALLEST summed score.  When two tied kbids also have
equal summed scores the source's pick depends on arbitrary dict order
(the sort is stable); the embedding keeps the earliest tallied one, and
the theorem below uses distinct score sums. -/
def link_aida_reference_kbid (votes : List (String × ℚ)) : Option String :=
  let tallies := tally_votes votes
  match (tallies.map (fun e => e.2.1)).max? with
  | none => none
  | some majority_num_votes =>
    match tallies.filter (fun e => e.2.1 = majority_num_votes) with
    | [] => none
    | x :: xs => some ((xs.foldl (fun best e => if e.2.2 < best.2.2 then e else best) x).1)

/-! ## 4.2 Dependency Graph Builder
(AnnotatedText._read_dependencies and collect_descendents,
annotated_text.py 653-711)

The per-sentence dependency structure is embedded as an id-indexed graph:
children.getD i [] and parents.getD i [] are token i's (relation,
partner id) edge lists.  Token ids are identified with token positions,
the documented input invariant (token ids are contiguous 0-based per
sentence after the 1-based markup ids are decremented). -/

/-- One dep element (annotated_text.py 671-676): raw 1-based governor and
dependent idx attributes plus the relation type attribute. -/
structure RawDep where
  governor_idx : Int
  dependent_idx : Int
  dep_type : String
  deriving DecidableEq, Repr

/-- Per-sentence dependency graph state: children / parents edge lists
indexed by token id, and the sentence root (a fresh sentinel Token() in
the source until some dep names the virtual root as governor). -/
structure DepGraph where
  children : List (List (String × Nat))
  parents : List (List (String × Nat))
  root : Option Nat
  deriving DecidableEq, Repr

/-- Python list lookup for token indices: sentence['tokens'][i] with
negative wrap; none is an IndexError. -/
def pyIndexNat (n : Nat) (i : Int) : Option Nat :=
  if 0 ≤ i then (if i < (n : Int) then some i.toNat else none)
  else (if 0 ≤ (n : Int) + i then some ((n : Int) + i).toNat else none)

/-- AnnotatedText.collect_descendents (annotated_text.py 701-711): the
token's own id followed by the closures of its children, depth first in
child order.  The source recursion is unbounded (it would not terminate
on a cyclic children graph); the embedding takes fuel, and the caller
passes the sentence's token count, which the acyclicity invariant proves
sufficient (collect_descendents_complete below).  A token whose
'children' key were absent would return just [id]; tokens always carry
the key (children = []), which gives the same result. -/
def collect_descendents (ch : List (List (String × Nat))) : Nat → Nat → List Nat
  | 0, tokenId => [tokenId]
  | fuel + 1, tokenId =>
    tokenId :: (ch.getD tokenId []).flatMap (fun p => collect_descendents ch fuel p.2)

/-- Loop body of AnnotatedText._read_dependencies (annotated_text.py
671-698) for one dep element over n sentence tokens: decrement the
1-based indices; a governor idx below 0 is the virtual root, marking the
dependent as sentence root and clearing its parents; otherwise look up
the governor (IndexError if out of range), skip the edge silently when
the governor's id already occurs in the dependent's descendant closure
(the cycle guard, line 692), and otherwise append the two-way link. -/
def read_dependencies_step (n : Nat) (g : DepGraph) (dep : RawDep) : Except String DepGraph :=
  let dependent_idx : Int := dep.dependent_idx - 1
  match pyIndexNat n dependent_idx with
  | none => .error "IndexError: sentence token index out of range"
  | some dId =>
    let governor_idx : Int := dep.governor_idx - 1
    if governor_idx < 0 then
      .ok { g with root := some dId, parents := g.parents.set dId [] }
    else if governor_idx < (n : Int) then
      let gId := governor_idx.toNat
      if (collect_descendents g.children n dId).contains gId then
        .ok g
      else
        .ok { g with
          children := g.children.set gId (g.children.getD gId [] ++ [(dep.dep_type, dId)]),
          parents := g.parents.set dId (g.parents.getD dId [] ++ [(dep.dep_type, gId)]) }
    else .error "IndexError: sentence token index out of range"

/-- AnnotatedText._read_dependencies (annotated_text.py 653-698) run over
a sentence of n tokens: fold the step over the dep list, starting from
empty edge lists.  (The selection of the dependencies element by
representation kind, lines 655-669, is embedded in read_sentence below;
a missing element is a fatal AttributeError there.) -/
def read_dependencies (n : Nat) (deps : List RawDep) : Except String DepGraph :=
  deps.foldlM (read_dependencies_step n)
    { children := List.replicate n [], parents := List.replicate n [], root := none }

/-- Edge relation of a children graph: token b is a dependency child of
token a via some relation label. -/
def DepEdge (ch : List (List (String × Nat))) (a b : Nat) : Prop :=
  ∃ r, (r, b) ∈ ch.getD a []

/-- Acyclicity: no token is its own proper descendant in the children
graph. -/
def AcyclicDep (ch : List (List (String × Nat))) : Prop :=
  ∀ t, ¬ Relation.TransGen (DepEdge ch) t t

/-- All edges stay inside the sentence's token ids. -/
def DepBounded (n : Nat) (ch : List (List (String × Nat))) : Prop :=
  ∀ a b, DepEdge ch a b → a < n ∧ b < n

/-! ## 4.4 Entity Span Extractor
(AnnotatedText._read_entities, annotated_text.py 798-853) -/

/-- AnnotatedText.EXCLUDE_NER_TYPES (annotated_text.py 13-16). -/
def EXCLUDE_NER_TYPES : List String :=
  ["TIME", "DATE", "NUMBER", "DURATION", "PERCENT", "SET", "ORDINAL", "MONEY"]

/-- Scan state of the _read_entities loop: closed spans so far, the open
span (tokens plus sentence id), and last_entity_type. -/
structure EntityScanState where
  entities : List (List Tok × Int)
  cur_entity : Option (List Tok × Int)
  last_entity_type : Option String
  deriving DecidableEq, Repr

/-- Loop body of _read_entities (annotated_text.py 808-840): a token with
null or excluded entity type closes the open span; a token whose type
equals last_entity_type extends the open span; any other typed token
closes the open span and opens a new one.  The extend branch with no open
span is unreachable (last_entity_type can only name a kept type while a
span is open; the source would raise TypeError there) and returns the
state unchanged.  The token['entity_idx'] back-annotation is not modelled
(nothing reads it). -/
def read_entities_step (exclude_ordinal_NERs : Bool) (st : EntityScanState) (token : Tok) :
    EntityScanState :=
  let exclude : Bool :=
    exclude_ordinal_NERs &&
      match token.ner with
      | some nv => EXCLUDE_NER_TYPES.contains nv
      | none => false
  if token.ner = none ∨ exclude then
    { entities := st.entities ++ (match st.cur_entity with | some c => [c] | none => []),
      cur_entity := none,
      last_entity_type := token.ner }
  else if token.ner = st.last_entity_type then
    match st.cur_entity with
    | some c =>
      { st with cur_entity := some (c.1 ++ [token], c.2), last_entity_type := token.ner }
    | none => st
  else
    { entities := st.entities ++ (match st.cur_entity with | some c => [c] | none => []),
      cur_entity := some ([token], token.sentence_id),
      last_entity_type := token.ner }

/-- AnnotatedText._read_entities (annotated_text.py 798-853): scan the
sentence's tokens into maximal same-typed spans (closing a trailing open
span at sentence end), compute each span's head with find_head, and drop
spans whose head is None.  Building the entity dict and attaching its
head are fused into one filterMap: entity dicts that are dropped for a
None head are never observed elsewhere. -/
def read_entities (exclude_ordinal_NERs : Bool) (tokens : List Tok) : List Mention :=
  let final := tokens.foldl (read_entities_step exclude_ordinal_NERs)
    { entities := [], cur_entity := none, last_entity_type := none }
  let spans := final.entities ++ (match final.cur_entity with | some c => [c] | none => [])
  spans.filterMap (fun sp =>
    (find_head sp.1).map (fun h =>
      { tokens := sp.1, sentence_id := sp.2, head := some h,
        start := none, stop := none,
        kbIdentifier := none, disambiguationScore := none, types := none }))

/-! ## 4.5 Coreference Normalizer
(AnnotatedText._build_coreferences, _standardize_coreferencing,
annotated_text.py 440-581) -/

/-- Construction-time configuration recorded by AnnotatedText.__init__
(annotated_text.py 21-54). -/
structure Config where
  dependencies : String
  exclude_ordinal_NERs : Bool
  exclude_long_mentions : Bool
  long_mention_threshold : Int
  exclude_non_ner_coreferences : Bool
  deriving DecidableEq, Repr

/-- One mention element of a coreference chain in the markup: 1-based
sentence / start / end / head indices plus the representative attribute
(annotated_text.py 536-543; head is read from the headword tag that the
soup workaround renames). -/
structure MentionTag where
  sentence : Int
  start : Int
  stop : Int
  headword : Int
  representative : Bool
  deriving DecidableEq, Repr

/-- Loop body over one mention tag (annotated_text.py 536-562), folding
(mentions so far, flagged representative so far): decrement the 1-based
indices, resolve the sentence (IndexError fatal), slice its tokens for
the span and index the head token (IndexError fatal), skip the mention
when the long-mention filter applies, otherwise record it as flagged
representative when the attribute is present (a later flag overwrites an
earlier one) and append it. -/
def read_coreference_mention (sentences : List (List Tok)) (cfg : Config)
    (st : List Mention × Option Mention) (tag : MentionTag) :
    Except String (List Mention × Option Mention) := do
  let sentence_id := tag.sentence - 1
  let sentence ←
    match pyGet sentences sentence_id with
    | none => Except.error "IndexError: sentence index out of range"
    | some s => pure s
  let tokens := pySlice sentence (tag.start - 1) (tag.stop - 1)
  let head ←
    match pyGet sentence (tag.headword - 1) with
    | none => Except.error "IndexError: head token index out of range"
    | some h => pure h
  let mention : Mention :=
    { sentence_id := sentence_id, tokens := tokens, head := some head,
      start := none, stop := none,
      kbIdentifier := none, disambiguationScore := none, types := none }
  let do_exclude := cfg.exclude_long_mentions ∧
    (mention.tokens.length : Int) > cfg.long_mention_threshold
  if do_exclude then
    pure st
  else
    pure (st.1 ++ [mention], if tag.representative then some mention else st.2)

/-- One coreference chain (annotated_text.py 528-574): fold the mention
tags; a chain left with no mentions is dropped (none); otherwise the
representative defaults to the first surviving mention when no tag was
flagged. -/
def read_coreference_chain (sentences : List (List Tok)) (cfg : Config) (cid : Int)
    (ctag : List MentionTag) : Except String (Option Reference) := do
  let st ← ctag.foldlM (read_coreference_mention sentences cfg) ([], none)
  match st.1, st.2 with
  | [], _ => pure none
  | m :: ms, rep =>
    pure (some { id := cid, mentions := m :: ms, representative := rep.getD m,
                 kbIdentifier := none, types := none })

/-- Signature (sentence id, head token id) of a mention or entity dict
(annotated_text.py 451-454, 469-472, 484-487).  The source reads
m['head']['id'] directly and would raise on a None head; every dict it is
applied to carries a real head (entities with None heads were filtered,
coreference mentions index a real token), so the embedding returns none
exactly on the unreachable inputs. -/
def mention_sig (m : Mention) : Option (Int × Int) :=
  m.head.map (fun h => (m.sentence_id, h.id))

/-- The (mention sentence id, token id) pairs contributed by every mention
of every reference in a list, as collected into all_coref_tokens
(annotated_text.py 477-482) and as re-read by claim C8 over the final
reference list. -/
def mention_token_pairs (refs : List Reference) : List (Int × Int) :=
  refs.flatMap (fun r => r.mentions.flatMap (fun m =>
    m.tokens.map (fun t => (m.sentence_id, t.id))))

/-- Signature-to-entity lookup of _standardize_coreferencing (the
overwriting dict insert of line 458 keeps the last entity written for a
signature). -/
def ner_entity_lookup (entities : List Mention) (s : Int × Int) : Option Mention :=
  (entities.filter (fun e => mention_sig e = some s)).getLast?

/-- Promotion of one novel entity signature to a single-mention reference
(annotated_text.py 509-515), threading the id counter. -/
def promote_novel (entities : List Mention) (acc : List Reference × Int) (s : Int × Int) :
    List Reference × Int :=
  match ner_entity_lookup entities s with
  | none => acc   -- unreachable: every novel signature names an entity
  | some e =>
    (acc.1 ++ [{ id := acc.2, mentions := [e], representative := e,
                 kbIdentifier := none, types := none }], acc.2 + 1)

/-- AnnotatedText._standardize_coreferencing (annotated_text.py 440-515)
over the flat entity list (the source iterates sentences and their
entities in order) and the built chains, threading the coreference id
counter; returns (references, next id).  Python set iteration order is
arbitrary, so the novel signatures are processed in first-occurrence
order here; the signature-to-dict lookups keep the last dict written for
a signature, like the source's overwriting dict inserts. -/
def standardize_coreferencing (exclude_non_ner_coreferences : Bool)
    (entities : List Mention) (corefs : List Reference) (next_id : Int) :
    List Reference × Int :=
  let all_ner_signatures := (entities.filterMap mention_sig).dedup
  let all_coref_signatures :=
    (corefs.filterMap (fun c => mention_sig c.representative)).dedup
  let coref_entity_lookup : Int × Int → Option Reference := fun s =>
    (corefs.filter (fun c => mention_sig c.representative = some s)).getLast?
  let all_coref_tokens := mention_token_pairs corefs
  let novel_ner_signatures := all_ner_signatures.filter (fun s => s ∉ all_coref_tokens)
  let valid_coref_signatures := all_coref_signatures.filter (fun s => s ∈ all_ner_signatures)
  let base := if exclude_non_ner_coreferences
    then valid_coref_signatures.filterMap coref_entity_lookup
    else corefs
  novel_ner_signatures.foldl (promote_novel entities) (base, next_id)

/-- AnnotatedText._build_coreferences (annotated_text.py 518-581): read
each chain (a chain id is drawn from the counter before the chain can
still be dropped), then standardize.  Input sentences are given as their
token lists. -/
def build_coreferences (sentences : List (List Tok)) (cfg : Config)
    (ctags : List (List MentionTag)) (entities : List Mention) (next_id : Int) :
    Except String (List Reference × Int) := do
  let st ← ctags.foldlM
    (fun (acc : List Reference × Int) ctag => do
      let r ← read_coreference_chain sentences cfg acc.2 ctag
      pure (match r with | none => acc.1 | some c => acc.1 ++ [c], acc.2 + 1))
    ([], next_id)
  pure (standardize_coreferencing cfg.exclude_non_ner_coreferences entities st.1 st.2)

/-! ## Mention extents and back-links
(AnnotatedText._link_references, annotated_text.py 395-437) -/

/-- Per-mention body of _link_references (annotated_text.py 402-422):
write start = min and end = max over the mention's token ids (a mention
with no tokens makes min() raise ValueError, aborting construction).
The mention['reference'] back-link, the token['mentions'] appends and the
sentence['mentions'] / sentence['references'] appends mutate the cyclic
object graph and are recomputed where read (mentions_of_token below). -/
def link_mention_extent (m : Mention) : Except String Mention :=
  match pyMinList (m.tokens.map Tok.id), pyMaxList (m.tokens.map Tok.id) with
  | some a, some b => .ok { m with start := some a, stop := some b }
  | _, _ => .error "ValueError: min() arg is an empty sequence"

/-- AnnotatedText._link_references (annotated_text.py 395-437) on the
reference list.  The source mutates each mention dict in place; since a
reference's representative is one of its mention dicts, the same update
is applied to the representative field to preserve that aliasing. -/
def link_references (refs : List Reference) : Except String (List Reference) :=
  refs.mapM (fun r => do
    let ms ← r.mentions.mapM link_mention_extent
    let rep ← link_mention_extent r.representative
    pure { r with mentions := ms, representative := rep })

/-! ## 4.7 External Link Reconciler
(AnnotatedText._read_aida_json, _link_aida_mention, _link_aida_reference,
_find_or_create_mention_by_offset_range, _get_token_after,
annotated_text.py 136-237, 283-379) -/

/-- Decision part of _find_or_create_mention_by_offset_range
(annotated_text.py 313-362), applied to the result of the offset scan
(found_tokens and the distinct mentions attached to them): no tokens in
range fails (None); exactly one mention is returned; several mentions go
to best-overlap selection; no mentions but some tokens synthesize a new
mention over those tokens (start/end = min/max token id, head via
find_head, sentence id of the first token) wrapped in a fresh
single-mention reference.  Returns (mention, references created, next
id); the sentence['mentions'] / sentence['references'] and
token['mentions'] back-link appends mutate the cyclic object graph and
are recovered from the returned references where read. -/
def find_or_create_mention_from_scan (found_tokens : List Tok) (mentions : List Mention)
    (start stop : Int) (next_id : Int) : Option Mention × List Reference × Int :=
  match found_tokens with
  | [] => (none, [], next_id)
  | t0 :: _ =>
    if mentions.length = 1 then (mentions.head?, [], next_id)
    else if 0 < mentions.length then
      (find_best_mention_overlap mentions start stop, [], next_id)
    else
      let ids := found_tokens.map Tok.id
      let new_mention : Mention :=
        { tokens := found_tokens,
          start := pyMinList ids,
          stop := pyMaxList ids,
          head := find_head found_tokens,
          sentence_id := t0.sentence_id,
          kbIdentifier := none, disambiguationScore := none, types := none }
      let ref : Reference :=
        { id := next_id, mentions := [new_mention], representative := new_mention,
          kbIdentifier := none, types := none }
      (some new_mention, [ref], next_id + 1)

/-! ## Document assembly (AnnotatedText.__init__ and the readers it runs,
annotated_text.py 21-150, 620-650, 890-938) -/

/-- One token element of the markup (annotated_text.py 900-926): 1-based
id attribute and the child fields; speaker may be absent. -/
structure TokenTag where
  id : Int
  word : String
  lemma_ : String
  pos : String
  ner : String
  character_offset_begin : Int
  character_offset_end : Int
  speaker : Option String
  deriving DecidableEq, Repr

/-- One sentence element: 1-based id attribute, token elements, and the
dependencies elements keyed by representation kind (absent kinds give a
fatal AttributeError when requested).  The serialized constituency parse
is outside every claim and not modelled (its absence is tolerated by the
source; its parsing never feeds tokens, entities, coreference or AIDA
structures). -/
structure SentenceTag where
  id : Int
  tokens : List TokenTag
  basic_deps : Option (List RawDep)
  collapsed_deps : Option (List RawDep)
  ccprocessed_deps : Option (List RawDep)
  deriving DecidableEq, Repr

/-- The walkable markup tree handed to _read_stanford_xml after the
BeautifulSoup parse (the concrete xml parser is an external collaborator):
sentence elements, coreference chains, and the length of the raw text
(read by _get_token_after's end-of-text check). -/
structure StanfordInput where
  sentence_tags : List SentenceTag
  coref_tags : List (List MentionTag)
  text_len : Int
  deriving DecidableEq, Repr

/-- bestEntity object of an AIDA mention (annotated_text.py 209-214). -/
structure BestEntity where
  kbIdentifier : String
  disambiguationScore : ℚ
  deriving DecidableEq, Repr

/-- One AIDA feed mention: character offset, length, optional best
entity. -/
structure AidaMentionIn where
  offset : Int
  length : Int
  bestEntity : Option BestEntity
  deriving DecidableEq, Repr

/-- Parsed AIDA json: the mentions list and the entityMetadata mapping
from kb identifier to its type list (annotated_text.py 136-150,
195-200). -/
structure AidaInput where
  mentions : List AidaMentionIn
  entityMetadata : List (String × List String)
  deriving DecidableEq, Repr

/-- AnnotatedText.fix_word (annotated_text.py 932-938). -/
def fix_word (w : String) : String :=
  if w = "-LRB-" then "("
  else if w = "-RRB-" then ")"
  else w

/-- AnnotatedText._read_tokens (annotated_text.py 890-930): decrement the
1-based id, normalize the word, map entity type O to null, and create the
token with empty children/parents/mentions lists (the keys are present
from the start). -/
def read_tokens (sentence_id : Int) (tags : List TokenTag) : List Tok :=
  tags.map (fun t =>
    { id := t.id - 1, sentence_id := sentence_id,
      word := fix_word t.word, lemma_ := t.lemma_, pos := t.pos,
      ner := if t.ner = "O" then none else some t.ner,
      character_offset_begin := t.character_offset_begin,
      character_offset_end := t.character_offset_end,
      speaker := t.speaker,
      parents := some [], children := some [] })

/-- A sentence of the document (annotated_text.py 620-650): id, tokens,
the dependency graph built over them (its root field holds the sentence
root id; the sentinel Token() of line 629 is the none state), and the
entity spans.  The sentence['mentions'] / sentence['references']
back-link lists are recovered from the document's references where
read. -/
structure Sentence where
  id : Int
  tokens : List Tok
  dep_graph : DepGraph
  entities : List Mention
  deriving DecidableEq, Repr

/-- AnnotatedText._read_sentence together with the dependency-kind
dispatch of _read_dependencies (annotated_text.py 620-669): build the
tokens, select the dependencies element for the configured kind
(unrecognized kind re-raises the ValueError of lines 661-665; a missing
element is a fatal AttributeError), build the dependency graph, and
extract the entity spans. -/
def read_sentence (cfg : Config) (stag : SentenceTag) : Except String Sentence := do
  let sid := stag.id - 1
  let toks := read_tokens sid stag.tokens
  let depsOpt ←
    if cfg.dependencies = "collapsed-ccprocessed" then pure stag.ccprocessed_deps
    else if cfg.dependencies = "collapsed" then pure stag.collapsed_deps
    else if cfg.dependencies = "basic" then pure stag.basic_deps
    else Except.error "ValueError: dependencies must be one of basic, collapsed, or collapsed-ccprocessed."
  let deps ←
    match depsOpt with
    | none => Except.error "AttributeError: no dependencies element of the requested type"
    | some d => pure d
  let g ← read_dependencies toks.length deps
  pure { id := sid, tokens := toks, dep_graph := g,
         entities := read_entities cfg.exclude_ordinal_NERs toks }

/-- The assembled document: sentences, the document-wide token list, the
raw text length, the normalized reference list, the coreference id
counter, and the disambiguated references collected by AIDA linking.
The tokens_by_offset index is recomputed from the token list (the source
dict maps each begin offset to the last token written for it). -/
structure Doc where
  sentences : List Sentence
  tokens : List Tok
  text_len : Int
  references : List Reference
  next_coref_id : Int
  disambiguated_references : List Reference
  deriving DecidableEq, Repr

/-- tokens_by_offset lookup (annotated_text.py 645-648, 371): the dict is
updated sentence by sentence, so a duplicated begin offset keeps the last
token. -/
def tokens_by_offset (d : Doc) (p : Int) : Option Tok :=
  (d.tokens.filter (fun t => t.character_offset_begin = p)).getLast?

/-- token['mentions'] of a token, as populated by _link_references
(appending each reference mention to its tokens) and by mention
synthesis: recovered as the mentions of the document's references that
contain the token. -/
def mentions_of_token (d : Doc) (t : Tok) : List Mention :=
  (d.references.flatMap (fun r => r.mentions)).filter (fun m => t ∈ m.tokens)

/-- AnnotatedText._get_token_after (annotated_text.py 365-379): advance
the pointer until tokens_by_offset hits, re-raising the KeyError once the
pointer passes the end of the text.  Structurally recursive on fuel; the
wrapper passes enough fuel to reach text_len + 1, past which the source
raises. -/
def get_token_after_go (d : Doc) : Nat → Int → Except String Tok
  | 0, _ => .error "KeyError: no token found before end of text"
  | fuel + 1, pointer =>
    match tokens_by_offset d pointer with
    | some t => .ok t
    | none =>
      if pointer + 1 > d.text_len then
        .error "KeyError: no token found before end of text"
      else get_token_after_go d fuel (pointer + 1)

/-- Fuel wrapper for _get_token_after. -/
def get_token_after (d : Doc) (pointer : Int) : Except String Tok :=
  get_token_after_go d ((d.text_len + 1 - pointer).toNat + 1) pointer

/-- One iteration of the while loop of
_find_or_create_mention_by_offset_range (annotated_text.py 293-311),
folding (pointer, found_tokens, mentions, seen mention spans): stop once
the pointer passes the range end; fetch the next token (KeyError fatal);
stop before a token that runs past the range end; otherwise keep the
token, collect its mentions not yet seen by (start, end) span identity,
and jump the pointer to the token's end offset.  Structurally recursive
on fuel; each kept token moves the pointer to its end offset, so any run
of the source in which token end offsets exceed their begin offsets is
dominated by the wrapper's fuel, and fuel exhaustion (an error) marks
runs on which the source loops forever. -/
def scan_offset_range_go (d : Doc) (stop : Int) :
    Nat → Int → List Tok → List Mention → List (Option Int × Option Int) →
    Except String (List Tok × List Mention)
  | 0, _, _, _, _ => .error "nontermination: token end offsets do not advance"
  | fuel + 1, pointer, found_tokens, mentions, seen_mentions =>
    if pointer ≤ stop then do
      let token ← get_token_after d pointer
      if token.character_offset_end > stop then
        pure (found_tokens, mentions)
      else
        let step := (mentions_of_token d token).foldl
          (fun (acc : List Mention × List (Option Int × Option Int)) m =>
            if (m.start, m.stop) ∈ acc.2 then acc
            else (acc.1 ++ [m], acc.2 ++ [(m.start, m.stop)]))
          (mentions, seen_mentions)
        scan_offset_range_go d stop fuel token.character_offset_end
          (found_tokens ++ [token]) step.1 step.2
    else pure (found_tokens, mentions)

/-- The offset scan of _find_or_create_mention_by_offset_range
(annotated_text.py 285-311). -/
def scan_offset_range (d : Doc) (start stop : Int) :
    Except String (List Tok × List Mention) :=
  scan_offset_range_go d stop ((stop + 1 - start).toNat + d.tokens.length + 2)
    start [] [] []

/-- AnnotatedText._find_or_create_mention_by_offset_range
(annotated_text.py 283-362): scan the offset range, then decide / create;
a created reference is appended to the document and the id counter
advances. -/
def find_or_create_mention_by_offset_range (d : Doc) (start length : Int) :
    Except String (Option Mention × Doc) := do
  let scanned ← scan_offset_range d start (start + length)
  match find_or_create_mention_from_scan scanned.1 scanned.2 start (start + length)
      d.next_coref_id with
  | (optM, newRefs, nid) =>
    pure (optM, { d with references := d.references ++ newRefs, next_coref_id := nid })

/-- entityMetadata lookup (a json object; duplicate keys keep the last
entry, as in a Python dict built from json). -/
def entity_metadata_types (meta : List (String × List String)) (kbid : String) :
    Option (List String) :=
  ((meta.filter (fun e => e.1 = kbid)).getLast?).map (fun e => e.2)

/-- In-place mutation of a mention dict, replayed over the value model:
every occurrence of the mention value inside the document's references
(including as a representative) is replaced by the updated value.
Distinct dict objects with identical contents are merged by this
replacement; no claim depends on such duplicates. -/
def doc_update_mention (d : Doc) (m0 m1 : Mention) : Doc :=
  { d with references := d.references.map (fun r =>
      { r with
        mentions := r.mentions.map (fun m => if m = m0 then m1 else m),
        representative := if r.representative = m0 then m1 else r.representative }) }

/-- AnnotatedText._link_aida_mention (annotated_text.py 206-237): a feed
mention with no bestEntity, or whose kb identifier is missing from
entityMetadata, is skipped (the KeyError is caught); otherwise find or
create the matching mention and attach kbIdentifier / score / types
(YAGO_ prefix stripped).  The .decode('unicode-escape') of the identifier
is the identity on the already-decoded strings of the embedding. -/
def link_aida_mention (d : Doc) (am : AidaMentionIn) (meta : List (String × List String)) :
    Except String Doc := do
  match am.bestEntity with
  | none => pure d
  | some be =>
    match entity_metadata_types meta be.kbIdentifier with
    | none => pure d
    | some tys =>
      let types := tys.map (fun t => t.drop 5)
      let found ← find_or_create_mention_by_offset_range d am.offset am.length
      match found.1 with
      | none => pure found.2
      | some m =>
        pure (doc_update_mention found.2 m
          { m with kbIdentifier := some be.kbIdentifier,
                   disambiguationScore := some be.disambiguationScore,
                   types := some types })

/-- AnnotatedText._link_aida_reference (annotated_text.py 153-203) on one
reference: tally the kb votes of its linked mentions (kbIdentifier and
disambiguationScore are always attached together by _link_aida_mention,
so the KeyError-guarded tally reads both or neither), choose the winning
kbid (link_aida_reference_kbid above), and attach it with its
entityMetadata types, YAGO_ prefix stripped; the metadata lookup for the
winner is outside any try in the source, so a missing winner is fatal.
Returns none when no mention was linked (the reference is left out of the
disambiguated set). -/
def link_aida_reference (r : Reference) (meta : List (String × List String)) :
    Except String (Option Reference) :=
  let votes := r.mentions.filterMap (fun m =>
    match m.kbIdentifier, m.disambiguationScore with
    | some k, some s => some (k, s)
    | _, _ => none)
  match link_aida_reference_kbid votes with
  | none => pure none
  | some kbId =>
    match entity_metadata_types meta kbId with
    | none => .error "KeyError: winning kb identifier missing from entityMetadata"
    | some tys =>
      pure (some { r with kbIdentifier := some kbId,
                          types := some (tys.map (fun t => t.drop 5)) })

/-- AnnotatedText._read_aida_json (annotated_text.py 136-150): link each
feed mention, then resolve each reference, updating it in place when a
winner exists and collecting the winners into
disambiguated_references. -/
def read_aida_json (d : Doc) (a : AidaInput) : Except String Doc := do
  let d1 ← a.mentions.foldlM (fun acc am => link_aida_mention acc am a.entityMetadata) d
  let upd ← d1.references.mapM (fun r =>
    (link_aida_reference r a.entityMetadata).map (fun o => (r, o)))
  pure { d1 with
    references := upd.map (fun p => p.2.getD p.1),
    disambiguated_references := upd.filterMap (fun p => p.2) }

/-- AnnotatedText._read_stanford_xml / _read_all_sentences
(annotated_text.py 73-134): read every sentence (an article with no
sentences container is tolerated upstream by handing an empty sentence
list here), extend the document token list sentence by sentence, build
and standardize the coreferences (the id counter starts at 0), then link
references. -/
def read_stanford_xml (cfg : Config) (x : StanfordInput) : Except String Doc := do
  let sents ← x.sentence_tags.mapM (read_sentence cfg)
  let entities := sents.flatMap (fun s => s.entities)
  let built ← build_coreferences (sents.map (fun s => s.tokens)) cfg x.coref_tags entities 0
  let refs ← link_references built.1
  pure { sentences := sents,
         tokens := sents.flatMap (fun s => s.tokens),
         text_len := x.text_len,
         references := refs,
         next_coref_id := built.2,
         disambiguated_references := [] }

/-- AnnotatedText.LEGAL_DEPENDENCY_TYPES (annotated_text.py 17-19). -/
def LEGAL_DEPENDENCY_TYPES : List String :=
  ["collapsed-ccprocessed", "collapsed", "basic"]

/-- Construction-time errors, separated from parse failures. -/
inductive InitError where
  | invalidDependencies
  | aidaWithoutXml
  | parse (msg : String)
  deriving DecidableEq, Repr

/-- AnnotatedText.__init__ (annotated_text.py 21-70): record the
configuration flags; raise the ValueError for an unrecognized dependency
kind BEFORE any input is touched; then, when markup is supplied, parse it
and afterwards the AIDA feed if present; AIDA json without markup raises;
neither input constructs an empty object (ok none). -/
def AnnotatedText_init (cfg : Config) (corenlp_xml : Option StanfordInput)
    (aida_json : Option AidaInput) : Except InitError (Option Doc) :=
  if cfg.dependencies ∉ LEGAL_DEPENDENCY_TYPES then
    .error .invalidDependencies
  else
    match corenlp_xml with
    | some x =>
      match read_stanford_xml cfg x with
      | .error e => .error (.parse e)
      | .ok d =>
        match aida_json with
        | none => .ok (some d)
        | some a =>
          match read_aida_json d a with
          | .error e => .error (.parse e)
          | .ok d1 => .ok (some d1)
    | none =>
      match aida_json with
      | some _ => .error .aidaWithoutXml
      | none => .ok none

/-! ## Specification predicates -/

/-- Spec 8: a reference's mention list is non-empty and its designated
representative is one of its mentions (the representative is a single
field, so membership expresses that exactly one mention is
designated). -/
def ReferenceWF (r : Reference) : Prop :=
  r.mentions ≠ [] ∧ r.representative ∈ r.mentions

/-- Spec 8: a mention's start/end fields hold the minimum and maximum of
its tokens' ids. -/
def MentionExtentOK (m : Mention) : Prop :=
  ∃ a b, m.start = some a ∧ m.stop = some b ∧
    a ∈ m.tokens.map Tok.id ∧ (∀ c ∈ m.tokens.map Tok.id, a ≤ c) ∧
    b ∈ m.tokens.map Tok.id ∧ (∀ c ∈ m.tokens.map Tok.id, c ≤ b)

/-- Every reference of the document is well formed. -/
def DocRefsWF (d : Doc) : Prop := ∀ r ∈ d.references, ReferenceWF r

/-- Every mention of every reference of the document has correct span
bounds. -/
def DocExtentsOK (d : Doc) : Prop :=
  ∀ r ∈ d.references, ∀ m ∈ r.mentions, MentionExtentOK m

/-- Every entity span of the document is covered by some reference: its
(sentence id, head token id) signature occurs among the (mention sentence
id, token id) signatures of the document's references. -/
def DocEntitiesCovered (d : Doc) : Prop :=
  ∀ s ∈ d.sentences, ∀ e ∈ s.entities, ∀ h, e.head = some h →
    (e.sentence_id, h.id) ∈ mention_token_pairs d.references

/-- One step of AIDA linking relates the document before and after:
sentences are untouched, reference well-formedness and mention extents
are preserved, and the (mention sentence id, token id) signature set of
the references only grows. -/
def AidaStepOK (d d1 : Doc) : Prop :=
  d1.sentences = d.sentences ∧
    (DocRefsWF d → DocRefsWF d1) ∧
    (DocExtentsOK d → DocExtentsOK d1) ∧
    (∀ sig, sig ∈ mention_token_pairs d.references → sig ∈ mention_token_pairs d1.references)

/-- Example inputs for the witnesses: a one-token PERSON sentence with an
empty dependency list, no coreference chains and no AIDA feed. -/
def exCfg : Config :=
  { dependencies := "collapsed-ccprocessed", exclude_ordinal_NERs := false,
    exclude_long_mentions := false, long_mention_threshold := 5,
    exclude_non_ner_coreferences := false }

/-- Example markup input for the witnesses. -/
def exStanford : StanfordInput :=
  { sentence_tags := [
      { id := 1,
        tokens := [
          { id := 1, word := "Obama", lemma_ := "Obama", pos := "NNP", ner := "PERSON",
            character_offset_begin := 0, character_offset_end := 5, speaker := none }],
        basic_deps := none, collapsed_deps := none,
        ccprocessed_deps := some [] }],
    coref_tags := [],
    text_len := 5 }

/-- The token of the example document. -/
def exTok : Tok :=
  { id := 0, sentence_id := 0, word := "Obama", lemma_ := "Obama", pos := "NNP",
    ner := some "PERSON", character_offset_begin := 0, character_offset_end := 5,
    speaker := none, parents := some [], children := some [] }

/-- The entity span of the example document (before extents are
written). -/
def exEntity : Mention :=
  { sentence_id := 0, tokens := [exTok], head := some exTok,
    start := none, stop := none,
    kbIdentifier := none, disambiguationScore := none, types := none }

/-- The promoted single-mention reference of the example document after
_link_references wrote the extents. -/
def exMention : Mention := { exEntity with start := some 0, stop := some 0 }

/-- The single reference of the example document. -/
def exRef : Reference :=
  { id := 0, mentions := [exMention], representative := exMention,
    kbIdentifier := none, types := none }

/-- The example document built from exStanford. -/
def exDoc : Doc :=
  { sentences := [
      { id := 0, tokens := [exTok],
        dep_graph := { children := [[]], parents := [[]], root := none },
        entities := [exEntity] }],
    tokens := [exTok],
    text_len := 5,
    references := [exRef],
    next_coref_id := 1,
    disambiguated_references := [] }

/-- Token 0 of the find_head example span: its only dependency parent
(token id 5) lies outside the span. -/
def exHeadTok0 : Tok :=
  { id := 0, sentence_id := 0, word := "president", lemma_ := "president", pos := "NN",
    ner := none, character_offset_begin := 0, character_offset_end := 9, speaker := none,
    parents := some [("det", 5)], children := some [] }

/-- Token 1 of the find_head example span: its dependency parent is token
0, which is inside the span. -/
def exHeadTok1 : Tok :=
  { id := 1, sentence_id := 0, word := "Obama", lemma_ := "Obama", pos := "NNP",
    ner := some "PERSON", character_offset_begin := 10, character_offset_end := 15,
    speaker := none, parents := some [("nn", 0)], children := some [] }

/-- First candidate mention of the best-overlap scenario: token character
span [10, 20). -/
def exOverlapTok1 : Tok :=
  { id := 0, sentence_id := 0, word := "w", lemma_ := "w", pos := "NN", ner := none,
    character_offset_begin := 10, character_offset_end := 20, speaker := none,
    parents := some [], children := some [] }

/-- Second candidate mention of the best-overlap scenario: token character
span [10, 25). -/
def exOverlapTok2 : Tok :=
  { id := 1, sentence_id := 0, word := "v", lemma_ := "v", pos := "NN", ner := none,
    character_offset_begin := 10, character_offset_end := 25, speaker := none,
    parents := some [], children := some [] }

/-- The candidate mention spanning [10, 20). -/
def exOverlapMention1 : Mention :=
  { sentence_id := 0, tokens := [exOverlapTok1], head := some exOverlapTok1,
    start := some 0, stop := some 0,
    kbIdentifier := none, disambiguationScore := none, types := none }

/-- The candidate mention spanning [10, 25). -/
def exOverlapMention2 : Mention :=
  { sentence_id := 0, tokens := [exOverlapTok2], head := some exOverlapTok2,
    start := some 1, stop := some 1,
    kbIdentifier := none, disambiguationScore := none, types := none }

/-- Example dependency input for the C1 witness: one dep element linking
governor 1 to dependent 2 (1-based markup indices) in a two-token
sentence. -/
def exDeps : List RawDep :=
  [{ governor_idx := 1, dependent_idx := 2, dep_type := "nsubj" }]

/-- The dependency graph read from exDeps. -/
def exDepGraph : DepGraph :=
  { children := [[("nsubj", 1)], []], parents := [[], [("nsubj", 0)]], root := none }

/-- Invariant maintained by the dependency-edge fold: the children table
covers the sentence's n tokens, every edge stays inside them, and the
graph is acyclic. -/
def DepInv (n : Nat) (g : DepGraph) : Prop :=
  g.children.length = n ∧ DepBounded n g.children ∧ AcyclicDep g.children

/-! # Theorems -/

/-! ## List helpers -/

theorem foldl_min_mem (x : Int) (xs : List Int) : xs.foldl min x ∈ x :: xs := by
  induction xs generalizing x with
  | nil => simp
  | cons y ys ih =>
    have h := ih (min x y)
    rcases List.mem_cons.mp h with h1 | h1
    · rcases min_choice x y with hm | hm
      · simp only [List.foldl_cons]
        rw [h1, hm]
        exact List.mem_cons_self _ _
      · simp only [List.foldl_cons]
        rw [h1, hm]
        exact List.mem_cons_of_mem _ (List.mem_cons_self _ _)
    · exact List.mem_cons_of_mem _ (List.mem_cons_of_mem _ h1)

theorem foldl_min_le (x : Int) (xs : List Int) : ∀ c ∈ x :: xs, xs.foldl min x ≤ c := by
  induction xs generalizing x with
  | nil => intro c hc; simp at hc; simp [hc]
  | cons y ys ih =>
    intro c hc
    have ihy := ih (min x y)
    rcases List.mem_cons.mp hc with rfl | hc1
    · exact le_trans (ihy _ (List.mem_cons_self _ _)) (min_le_left _ _)
    · rcases List.mem_cons.mp hc1 with rfl | hc2
      · exact le_trans (ihy _ (List.mem_cons_self _ _)) (min_le_right _ _)
      · exact ihy _ (List.mem_cons_of_mem _ hc2)

theorem foldl_max_mem (x : Int) (xs : List Int) : xs.foldl max x ∈ x :: xs := by
  induction xs generalizing x with
  | nil => simp
  | cons y ys ih =>
    have h := ih (max x y)
    rcases List.mem_cons.mp h with h1 | h1
    · rcases max_choice x y with hm | hm
      · simp only [List.foldl_cons]
        rw [h1, hm]
        exact List.mem_cons_self _ _
      · simp only [List.foldl_cons]
        rw [h1, hm]
        exact List.mem_cons_of_mem _ (List.mem_cons_self _ _)
    · exact List.mem_cons_of_mem _ (List.mem_cons_of_mem _ h1)

theorem foldl_max_le (x : Int) (xs : List Int) : ∀ c ∈ x :: xs, c ≤ xs.foldl max x := by
  induction xs generalizing x with
  | nil => intro c hc; simp at hc; simp [hc]
  | cons y ys ih =>
    intro c hc
    have ihy := ih (max x y)
    rcases List.mem_cons.mp hc with rfl | hc1
    · exact le_trans (le_max_left _ _) (ihy _ (List.mem_cons_self _ _))
    · rcases List.mem_cons.mp hc1 with rfl | hc2
      · exact le_trans (le_max_right _ _) (ihy _ (List.mem_cons_self _ _))
      · exact ihy _ (List.mem_cons_of_mem _ hc2)

theorem pyMinList_spec {l : List Int} {a : Int} (h : pyMinList l = some a) :
    a ∈ l ∧ ∀ c ∈ l, a ≤ c := by
  match l, h with
  | x :: xs, h =>
    simp only [pyMinList, Option.some.injEq] at h
    subst h
    exact ⟨foldl_min_mem x xs, foldl_min_le x xs⟩

theorem pyMaxList_spec {l : List Int} {b : Int} (h : pyMaxList l = some b) :
    b ∈ l ∧ ∀ c ∈ l, c ≤ b := by
  match l, h with
  | x :: xs, h =>
    simp only [pyMaxList, Option.some.injEq] at h
    subst h
    exact ⟨foldl_max_mem x xs, foldl_max_le x xs⟩

theorem getLast?_mem_of_ne_nil {l : List α} (h : l ≠ []) :
    ∃ y, l.getLast? = some y ∧ y ∈ l := by
  cases hl : l.getLast? with
  | none => exact absurd (List.getLast?_eq_none_iff.mp hl) h
  | some y => exact ⟨y, rfl, List.mem_of_mem_getLast? (by rw [hl]; rfl)⟩

/-! ## Except-monad fold and map helpers -/

theorem except_error_bind {ε α β : Type} (e : ε) (g : α → Except ε β) :
    (Except.error e >>= g) = Except.error e := rfl

theorem except_ok_bind {ε α β : Type} (a : α) (g : α → Except ε β) :
    (Except.ok a >>= g) = g a := rfl

theorem except_pure {ε α : Type} (a : α) : (pure a : Except ε α) = Except.ok a := rfl

theorem except_map_error {ε α β : Type} (e : ε) (f : α → β) :
    Except.map f (Except.error e : Except ε α) = Except.error e := rfl

theorem except_map_ok {ε α β : Type} (a : α) (f : α → β) :
    Except.map f (Except.ok a : Except ε α) = Except.ok (f a) := rfl

theorem foldlM_except_inv {σ α ε : Type} {f : σ → α → Except ε σ} (P : σ → Prop) :
    ∀ {l : List α} {s s' : σ},
      (∀ t x t', x ∈ l → P t → f t x = Except.ok t' → P t') →
      P s → l.foldlM f s = Except.ok s' → P s' := by
  intro l
  induction l with
  | nil =>
    intro s s' _ hs h
    simp only [List.foldlM_nil] at h
    cases h
    exact hs
  | cons a l ih =>
    intro s s' hf hs h
    simp only [List.foldlM_cons] at h
    cases hfa : f s a with
    | error e => rw [hfa, except_error_bind] at h; cases h
    | ok s1 =>
      rw [hfa, except_ok_bind] at h
      exact ih (fun t x t' hx => hf t x t' (List.mem_cons_of_mem _ hx))
        (hf s a s1 (List.mem_cons_self _ _) hs hfa) h

theorem mapM_except_ok_mem {α β ε : Type} {f : α → Except ε β} :
    ∀ {l : List α} {l' : List β}, l.mapM f = Except.ok l' →
      ∀ {x : α}, x ∈ l → ∃ y ∈ l', f x = Except.ok y := by
  intro l
  induction l with
  | nil => intro l' _ x hx; simp at hx
  | cons a l ih =>
    intro l' h x hx
    rw [List.mapM_cons] at h
    cases hfa : f a with
    | error e => rw [hfa, except_error_bind] at h; cases h
    | ok b =>
      rw [hfa, except_ok_bind] at h
      cases hml : l.mapM f with
      | error e => rw [hml, except_error_bind] at h; cases h
      | ok bs =>
        rw [hml, except_ok_bind, except_pure] at h
        cases h
        rcases List.mem_cons.mp hx with rfl | hx1
        · exact ⟨b, List.mem_cons_self _ _, hfa⟩
        · obtain ⟨y, hy1, hy2⟩ := ih hml hx1
          exact ⟨y, List.mem_cons_of_mem _ hy1, hy2⟩

theorem mapM_except_ok_rev {α β ε : Type} {f : α → Except ε β} :
    ∀ {l : List α} {l' : List β}, l.mapM f = Except.ok l' →
      ∀ {y : β}, y ∈ l' → ∃ x ∈ l, f x = Except.ok y := by
  intro l
  induction l with
  | nil =>
    intro l' h y hy
    simp only [List.mapM_nil] at h
    cases h
    simp at hy
  | cons a l ih =>
    intro l' h y hy
    rw [List.mapM_cons] at h
    cases hfa : f a with
    | error e => rw [hfa, except_error_bind] at h; cases h
    | ok b =>
      rw [hfa, except_ok_bind] at h
      cases hml : l.mapM f with
      | error e => rw [hml, except_error_bind] at h; cases h
      | ok bs =>
        rw [hml, except_ok_bind, except_pure] at h
        cases h
        rcases List.mem_cons.mp hy with rfl | hy1
        · exact ⟨a, List.mem_cons_self _ _, hfa⟩
        · obtain ⟨x, hx1, hx2⟩ := ih hml hy1
          exact ⟨x, List.mem_cons_of_mem _ hx1, hx2⟩

theorem mapM_except_ok_mem_of {α β ε : Type} {f : α → Except ε β} :
    ∀ {l : List α} {l' : List β}, l.mapM f = Except.ok l' →
      ∀ {x : α} {y : β}, x ∈ l → f x = Except.ok y → y ∈ l' := by
  intro l
  induction l with
  | nil => intro l' _ x y hx; simp at hx
  | cons a l ih =>
    intro l' h x y hx hfx
    rw [List.mapM_cons] at h
    cases hfa : f a with
    | error e => rw [hfa, except_error_bind] at h; cases h
    | ok b =>
      rw [hfa, except_ok_bind] at h
      cases hml : l.mapM f with
      | error e => rw [hml, except_error_bind] at h; cases h
      | ok bs =>
        rw [hml, except_ok_bind, except_pure] at h
        cases h
        rcases List.mem_cons.mp hx with rfl | hx1
        · rw [hfx] at hfa
          cases hfa
          exact List.mem_cons_self _ _
        · exact List.mem_cons_of_mem _ (ih hml hx1 hfx)

theorem mapM_except_ok_ne_nil {α β ε : Type} {f : α → Except ε β} {l : List α} {l' : List β}
    (h : l.mapM f = Except.ok l') (hne : l ≠ []) : l' ≠ [] := by
  match l, hne with
  | a :: l, _ =>
    rw [List.mapM_cons] at h
    cases hfa : f a with
    | error e => rw [hfa, except_error_bind] at h; cases h
    | ok b =>
      rw [hfa, except_ok_bind] at h
      cases hml : l.mapM f with
      | error e => rw [hml, except_error_bind] at h; cases h
      | ok bs =>
        rw [hml, except_ok_bind, except_pure] at h
        cases h
        simp

/-! ## Dependency graph: the cycle guard keeps the graph acyclic (C1) -/

theorem pyIndexNat_lt {n : Nat} {i : Int} {k : Nat} (h : pyIndexNat n i = some k) : k < n := by
  unfold pyIndexNat at h
  split_ifs at h with h1 h2 h3
  · cases h
    omega
  · cases h
    omega

theorem mem_collect_self (ch : List (List (String × Nat))) (fuel t : Nat) :
    t ∈ collect_descendents ch fuel t := by
  cases fuel <;> simp [collect_descendents]

theorem mem_collect_child {ch : List (List (String × Nat))} {fuel d : Nat} {r : String}
    {c x : Nat} (hc : (r, c) ∈ ch.getD d []) (hx : x ∈ collect_descendents ch fuel c) :
    x ∈ collect_descendents ch (fuel + 1) d := by
  simp only [collect_descendents, List.mem_cons, List.mem_flatMap]
  exact Or.inr ⟨(r, c), hc, hx⟩

theorem reflTransGen_chain {ch : List (List (String × Nat))} {d g : Nat}
    (h : Relation.ReflTransGen (DepEdge ch) d g) :
    ∃ l, List.Chain (DepEdge ch) d l ∧ g = l.getLastD d := by
  induction h using Relation.ReflTransGen.head_induction_on with
  | refl => exact ⟨[], List.Chain.nil, rfl⟩
  | head hdc _ ih =>
    obtain ⟨l, hl, hg⟩ := ih
    exact ⟨_ :: l, List.Chain.cons hdc hl, by rw [List.getLastD_cons]; exact hg⟩

theorem chain_mem_transGen {α : Type} {r : α → α → Prop} :
    ∀ {b : α} {l : List α}, List.Chain r b l → ∀ x ∈ l, Relation.TransGen r b x := by
  intro b l h
  induction h with
  | nil => simp
  | cons hbc _ ih =>
    intro x hx
    rcases List.mem_cons.mp hx with rfl | hx1
    · exact Relation.TransGen.single hbc
    · exact Relation.TransGen.head hbc (ih x hx1)

theorem chain_nodup {ch : List (List (String × Nat))} (acyc : AcyclicDep ch) {d : Nat}
    {l : List Nat} (hchain : List.Chain (DepEdge ch) d l) : (d :: l).Nodup := by
  induction hchain with
  | nil => simp
  | cons hab hbl ih =>
    rw [List.nodup_cons]
    refine ⟨?_, ih⟩
    intro hmem
    rcases List.mem_cons.mp hmem with rfl | hmem1
    · exact acyc _ (Relation.TransGen.single hab)
    · exact acyc _ (Relation.TransGen.head hab (chain_mem_transGen hbl _ hmem1))

theorem chain_bounded {ch : List (List (String × Nat))} {n : Nat} (hb : DepBounded n ch) :
    ∀ {d : Nat} {l : List Nat}, List.Chain (DepEdge ch) d l → ∀ x ∈ l, x < n := by
  intro d l h
  induction h with
  | nil => simp
  | cons hedge _ ih =>
    intro x hx
    rcases List.mem_cons.mp hx with rfl | hx1
    · exact (hb _ _ hedge).2
    · exact ih x hx1

theorem nodup_bounded_length_le {l : List Nat} {n : Nat} (hnd : l.Nodup)
    (hb : ∀ x ∈ l, x < n) : l.length ≤ n := by
  have h1 : l.toFinset ⊆ Finset.range n := by
    intro x hx
    exact Finset.mem_range.mpr (hb x (List.mem_toFinset.mp hx))
  have h2 := Finset.card_le_card h1
  rwa [List.toFinset_card_of_nodup hnd, Finset.card_range] at h2

theorem chain_getLastD_mem_collect {ch : List (List (String × Nat))} :
    ∀ (l : List Nat) (d fuel : Nat), List.Chain (DepEdge ch) d l → l.length ≤ fuel →
      l.getLastD d ∈ collect_descendents ch fuel d := by
  intro l
  induction l with
  | nil =>
    intro d fuel _ _
    simpa [List.getLastD] using mem_collect_self ch fuel d
  | cons c l ih =>
    intro d fuel hchain hlen
    obtain ⟨hedge, hchain1⟩ := List.chain_cons.mp hchain
    cases fuel with
    | zero => simp at hlen
    | succ f =>
      obtain ⟨r, hr⟩ := hedge
      have hlen1 : l.length ≤ f := by
        simp only [List.length_cons] at hlen
        omega
      have hmem := ih c f hchain1 hlen1
      rw [List.getLastD_cons]
      exact mem_collect_child hr hmem

theorem collect_descendents_complete {ch : List (List (String × Nat))} {n d g : Nat}
    (acyc : AcyclicDep ch) (hb : DepBounded n ch) (hd : d < n)
    (h : Relation.ReflTransGen (DepEdge ch) d g) :
    g ∈ collect_descendents ch n d := by
  obtain ⟨l, hchain, hg⟩ := reflTransGen_chain h
  have hnd := chain_nodup acyc hchain
  have hbl := chain_bounded hb hchain
  have hlen : (d :: l).length ≤ n := by
    apply nodup_bounded_length_le hnd
    intro x hx
    rcases List.mem_cons.mp hx with rfl | hx1
    · exact hd
    · exact hbl x hx1
  subst hg
  exact chain_getLastD_mem_collect l d n hchain (by simp at hlen; omega)

theorem getD_set_self {α : Type} {l : List α} {i : Nat} (h : i < l.length) (a dflt : α) :
    (l.set i a).getD i dflt = a := by
  induction l generalizing i with
  | nil => simp at h
  | cons x xs ih =>
    cases i with
    | zero => simp
    | succ j =>
      simp only [List.set_cons_succ, List.getD_cons_succ]
      exact ih (by simpa using h) 

theorem getD_set_ne {α : Type} {l : List α} {i j : Nat} (h : i ≠ j) (a dflt : α) :
    (l.set i a).getD j dflt = l.getD j dflt := by
  induction l generalizing i j with
  | nil => simp [List.set]
  | cons x xs ih =>
    cases i with
    | zero =>
      cases j with
      | zero => exact absurd rfl h
      | succ j1 => simp
    | succ i1 =>
      cases j with
      | zero => simp
      | succ j1 =>
        simp only [List.set_cons_succ, List.getD_cons_succ]
        exact ih (by omega) 

theorem depEdge_set_iff {ch : List (List (String × Nat))} {gv : Nat} (hgv : gv < ch.length)
    (rel : String) (dId : Nat) (a b : Nat) :
    DepEdge (ch.set gv (ch.getD gv [] ++ [(rel, dId)])) a b ↔
      DepEdge ch a b ∨ (a = gv ∧ b = dId) := by
  unfold DepEdge
  by_cases hag : a = gv
  · subst hag
    rw [getD_set_self hgv]
    constructor
    · rintro ⟨r, hr⟩
      rcases List.mem_append.mp hr with h1 | h1
      · exact Or.inl ⟨r, h1⟩
      · simp only [List.mem_singleton, Prod.mk.injEq] at h1
        exact Or.inr ⟨rfl, h1.2⟩
    · rintro (⟨r, hr⟩ | ⟨_, rfl⟩)
      · exact ⟨r, List.mem_append.mpr (Or.inl hr)⟩
      · exact ⟨rel, List.mem_append.mpr (Or.inr (by simp))⟩
  · rw [getD_set_ne (fun hh => hag hh.symm)]
    constructor
    · rintro ⟨r, hr⟩
      exact Or.inl ⟨r, hr⟩
    · rintro (⟨r, hr⟩ | ⟨rfl, _⟩)
      · exact ⟨r, hr⟩
      · exact absurd rfl hag

theorem transGen_head_decomp {α : Type} {r : α → α → Prop} {a b : α}
    (h : Relation.TransGen r a b) : ∃ c, r a c ∧ Relation.ReflTransGen r c b := by
  induction h with
  | single h1 => exact ⟨_, h1, Relation.ReflTransGen.refl⟩
  | tail _ hlast ih =>
    obtain ⟨c, h1, h2⟩ := ih
    exact ⟨c, h1, h2.tail hlast⟩

theorem reaches_set_decomp {ch : List (List (String × Nat))} {gv : Nat} {rel : String}
    {dId : Nat} (hgv : gv < ch.length) {a b : Nat}
    (h : Relation.ReflTransGen (DepEdge (ch.set gv (ch.getD gv [] ++ [(rel, dId)]))) a b) :
    Relation.ReflTransGen (DepEdge ch) a b ∨
      (Relation.ReflTransGen (DepEdge ch) a gv ∧
        Relation.ReflTransGen (DepEdge (ch.set gv (ch.getD gv [] ++ [(rel, dId)]))) dId b) := by
  induction h using Relation.ReflTransGen.head_induction_on with
  | refl => exact Or.inl Relation.ReflTransGen.refl
  | head hac hcb ih =>
    rcases (depEdge_set_iff hgv rel dId _ _).mp hac with hold | ⟨rfl, rfl⟩
    · rcases ih with h1 | ⟨h2, h3⟩
      · exact Or.inl (Relation.ReflTransGen.head hold h1)
      · exact Or.inr ⟨Relation.ReflTransGen.head hold h2, h3⟩
    · exact Or.inr ⟨Relation.ReflTransGen.refl, hcb⟩

theorem acyclic_set_edge {ch : List (List (String × Nat))} {gv : Nat} {rel : String}
    {dId : Nat} (acyc : AcyclicDep ch) (hgv : gv < ch.length)
    (hnr : ¬ Relation.ReflTransGen (DepEdge ch) dId gv) :
    AcyclicDep (ch.set gv (ch.getD gv [] ++ [(rel, dId)])) := by
  intro t ht
  obtain ⟨u, htu, hut⟩ := transGen_head_decomp ht
  rcases (depEdge_set_iff hgv rel dId _ _).mp htu with hold | ⟨rfl, rfl⟩
  · rcases reaches_set_decomp hgv hut with hA | ⟨hB1, hB2⟩
    · exact acyc t (Relation.TransGen.head' hold hA)
    · rcases reaches_set_decomp hgv hB2 with hC | ⟨hC1, _⟩
      · exact hnr ((hC.tail hold).trans hB1)
      · exact hnr hC1
  · rcases reaches_set_decomp hgv hut with hA | ⟨hB1, _⟩
    · exact hnr hA
    · exact hnr hB1

theorem depInv_start (n : Nat) :
    DepInv n { children := List.replicate n [], parents := List.replicate n [], root := none } := by
  have hrep : ∀ a : Nat, (List.replicate n ([] : List (String × Nat))).getD a [] = [] := by
    intro a
    rcases Nat.lt_or_ge a n with h | h
    · simp [List.getD, List.getElem?_replicate, h]
    · simp [List.getD, List.getElem?_replicate, Nat.not_lt.mpr h]
  refine ⟨by simp, ?_, ?_⟩
  · intro a b hedge
    obtain ⟨r, hr⟩ := hedge
    rw [hrep a] at hr
    simp at hr
  · intro t ht
    obtain ⟨u, htu, _⟩ := transGen_head_decomp ht
    obtain ⟨r, hr⟩ := htu
    rw [hrep t] at hr
    simp at hr

theorem read_dependencies_step_inv {n : Nat} {g : DepGraph} {dep : RawDep} {g1 : DepGraph}
    (hinv : DepInv n g) (h : read_dependencies_step n g dep = Except.ok g1) : DepInv n g1 := by
  obtain ⟨hlen, hb, hacyc⟩ := hinv
  cases hd : pyIndexNat n (dep.dependent_idx - 1) with
  | none =>
    simp only [read_dependencies_step, hd] at h
    cases h
  | some dId =>
    simp only [read_dependencies_step, hd] at h
    have hdn : dId < n := pyIndexNat_lt hd
    by_cases h1 : dep.governor_idx - 1 < 0
    · rw [if_pos h1] at h
      cases h
      exact ⟨hlen, hb, hacyc⟩
    · rw [if_neg h1] at h
      by_cases h2 : dep.governor_idx - 1 < (n : Int)
      · rw [if_pos h2] at h
        by_cases h3 : (collect_descendents g.children n dId).contains (dep.governor_idx - 1).toNat
        · rw [if_pos h3] at h
          cases h
          exact ⟨hlen, hb, hacyc⟩
        · rw [if_neg h3] at h
          cases h
          have hgvn : (dep.governor_idx - 1).toNat < n := by omega
          have hgvlen : (dep.governor_idx - 1).toNat < g.children.length := by
            rw [hlen]; exact hgvn
          have hnm : (dep.governor_idx - 1).toNat ∉ collect_descendents g.children n dId := by
            intro hmem
            exact h3 (List.contains_iff_exists_mem_beq.mpr ⟨_, hmem, by simp⟩)
          have hnr : ¬ Relation.ReflTransGen (DepEdge g.children) dId
              (dep.governor_idx - 1).toNat := by
            intro hr
            exact hnm (collect_descendents_complete hacyc hb hdn hr)
          refine ⟨by simpa using hlen, ?_, acyclic_set_edge hacyc hgvlen hnr⟩
          intro a b hedge
          rcases (depEdge_set_iff hgvlen dep.dep_type dId a b).mp hedge with hold | ⟨rfl, rfl⟩
          · exact hb a b hold
          · exact ⟨hgvn, hdn⟩
      · rw [if_neg h2] at h
        cases h

theorem read_dependencies_foldlM_inv {n : Nat} :
    ∀ (deps : List RawDep) (g g1 : DepGraph), DepInv n g →
      deps.foldlM (read_dependencies_step n) g = Except.ok g1 → DepInv n g1 := by
  intro deps g g1 hinv h
  exact foldlM_except_inv (DepInv n)
    (fun t x t1 _ ht hstep => read_dependencies_step_inv ht hstep) hinv h

/-- C1: for every constructed document and every sentence in it, the
dependency parent/child graph over the sentence's tokens is acyclic (no
token is its own proper descendant): before linking a governor to a
dependent, the dependent's full descendant-id closure is computed
depth-first over its existing children (collect_descendents), and the
edge is silently skipped whenever the governor's id appears in that
closure.  Formally: whenever _read_dependencies succeeds over a sentence
of n tokens, no token of the resulting children graph is its own proper
descendant. -/
theorem C1_dependency_graph_acyclic (n : Nat) (deps : List RawDep) (g : DepGraph)
    (h : read_dependencies n deps = Except.ok g) : AcyclicDep g.children :=
  (read_dependencies_foldlM_inv deps _ g (depInv_start n) h).2.2

/-- Witness for C1: a two-token sentence with one dependency edge builds
exactly exDepGraph, and the theorem yields its acyclicity. -/
theorem C1_dependency_graph_acyclic_witness :
    read_dependencies 2 exDeps = Except.ok exDepGraph ∧ AcyclicDep exDepGraph.children :=
  ⟨rfl, C1_dependency_graph_acyclic 2 exDeps exDepGraph rfl⟩

/-! ## Majority vote tie break (C2) -/

/-- C2 (code bug): the claim says that among kbids tied for the maximal
vote count, the one with the GREATEST summed confidence score wins, and
the source's own comments agree ("Sort them by largest total confidence
score to break ties", "Assign the highest confidence kbid",
annotated_text.py 185-192) — but the code sorts the tied kbids by summed
score ascending and takes index 0, the SMALLEST summed score.  At the
failing input both kbids have one vote and the summed scores are 9 and 1:
the resolver returns "B" (sum 1) where the claim and the comments require
"A" (sum 9). -/
theorem C2_tie_break_picks_lowest_score :
    link_aida_reference_kbid [("A", (9 : ℚ)), ("B", (1 : ℚ))] = some "B" := by decide

/-! ## Head finding (C3) -/

theorem find_head_step_cases (ts : List Tok) (acc : Option Tok) (t : Tok) :
    find_head_step ts acc t = acc ∨ find_head_step ts acc t = some t := by
  unfold find_head_step
  split_ifs with h1
  · exact Or.inl rfl
  · cases t.parents with
    | none => exact Or.inl rfl
    | some ps =>
      simp only
      split_ifs with h2
      · exact Or.inl rfl
      · exact Or.inr rfl

theorem find_head_foldl_mem (ts : List Tok) :
    ∀ (l : List Tok) (acc : Option Tok),
      l.foldl (find_head_step ts) acc = acc ∨
        ∃ u ∈ l, l.foldl (find_head_step ts) acc = some u := by
  intro l
  induction l with
  | nil => intro acc; exact Or.inl rfl
  | cons t l ih =>
    intro acc
    rw [List.foldl_cons]
    rcases find_head_step_cases ts acc t with hstep | hstep
    · rw [hstep]
      rcases ih acc with h1 | ⟨u, hu1, hu2⟩
      · exact Or.inl h1
      · exact Or.inr ⟨u, List.mem_cons_of_mem _ hu1, hu2⟩
    · rw [hstep]
      rcases ih (some t) with h1 | ⟨u, hu1, hu2⟩
      · exact Or.inr ⟨t, List.mem_cons_self _ _, h1⟩
      · exact Or.inr ⟨u, List.mem_cons_of_mem _ hu1, hu2⟩

theorem find_head_mem {ts : List Tok} {h0 : Tok} (h : find_head ts = some h0) : h0 ∈ ts := by
  unfold find_head at h
  split_ifs at h with h1
  · exact List.mem_of_mem_head? (by rw [h]; rfl)
  · rcases find_head_foldl_mem ts ts none with h2 | ⟨u, hu1, hu2⟩
    · rw [h2] at h; cases h
    · rw [hu2] at h
      cases h
      exact hu1

theorem find_head_step_parents_some (ts : List Tok) (acc : Option Tok) {t : Tok}
    (hp : t.parents ≠ none) : find_head_step ts acc t = some t := by
  unfold find_head_step
  cases hps : t.parents with
  | none => exact absurd hps hp
  | some ps =>
    rw [if_neg (by simp [hps])]
    simp [pyStrEqToken]

theorem find_head_foldl_last (ts : List Tok) :
    ∀ (l : List Tok) (acc : Option Tok), l ≠ [] → (∀ t ∈ l, t.parents ≠ none) →
      l.foldl (find_head_step ts) acc = l.getLast? := by
  intro l
  induction l with
  | nil => intro acc h; exact absurd rfl h
  | cons t l ih =>
    intro acc _ hp
    rw [List.foldl_cons, find_head_step_parents_some ts acc (hp t (List.mem_cons_self _ _))]
    cases l with
    | nil => rfl
    | cons u l1 =>
      rw [ih (some t) (by simp) (fun x hx => hp x (List.mem_cons_of_mem _ hx))]
      rfl

/-- C3 counterexample: the claim predicts that head finding scans in span
order and rejects a token whose dependency parent lies inside the span,
returning the FIRST surviving candidate.  In the span
[exHeadTok0, exHeadTok1], token 0's only parent (id 5) is outside the
span while token 1's parent is token 0, inside the span, so the claim
requires head = exHeadTok0.  The code returns exHeadTok1: the in-span
parent test (line 877) compares the relation label t[0] against the
token dicts and never rejects, head is reassigned without break so the
last token wins, and the no-links skip never fires because _read_tokens
always creates the parents/children keys. -/
theorem C3_find_head_counterexample :
    find_head [exHeadTok0, exHeadTok1] = some exHeadTok1 ∧ exHeadTok1 ≠ exHeadTok0 := by
  constructor
  · decide
  · decide

/-- C3 amended: a single-token span's head is the token itself; for a
span of two or more tokens whose tokens all carry the parents key (true
of every token built by _read_tokens), find_head returns the LAST token
of the span: the parent-rejection test of line 877 compares relation
labels against token dicts and never rejects, the no-links skip of line
871 never fires since the parents/children keys always exist, and the
loop overwrites head without breaking. -/
theorem C3_find_head_amended (ts : List Tok) (h2 : 2 ≤ ts.length)
    (hp : ∀ t ∈ ts, t.parents ≠ none) :
    find_head ts = ts.getLast? ∧ ∀ us : List Tok, us.length = 1 → find_head us = us.head? := by
  constructor
  · unfold find_head
    rw [if_neg (by omega)]
    exact find_head_foldl_last ts ts none (by intro hh; rw [hh] at h2; simp at h2) hp
  · intro us hus
    unfold find_head
    rw [if_pos hus]

/-- Witness for the amended C3: on the two-token span the head is the
last token. -/
theorem C3_find_head_amended_witness :
    2 ≤ ([exHeadTok0, exHeadTok1] : List Tok).length ∧
      find_head [exHeadTok0, exHeadTok1] = ([exHeadTok0, exHeadTok1] : List Tok).getLast? :=
  ⟨by decide,
    (C3_find_head_amended [exHeadTok0, exHeadTok1] (by decide) (by decide)).1⟩

/-! ## Jaccard overlap (C4, C5) -/

/-- C4 counterexample: for the target range [10, 22) and candidate
mentions with token spans [10, 20) and [10, 25) in that list order, the
claim requires best-overlap selection to return the SECOND mention.  The
code returns the FIRST: its Jaccard score is 10/12 against the second's
12/15, because the larger raw overlap of the second is normalized away by
its larger union. -/
theorem C4_best_overlap_counterexample :
    find_best_mention_overlap [exOverlapMention1, exOverlapMention2] 10 22 =
        some exOverlapMention1 ∧
      exOverlapMention1 ≠ exOverlapMention2 := by
  constructor
  · simp only [find_best_mention_overlap, mention_range, get_coverage_score,
      List.mapM_cons, List.mapM_nil, exOverlapMention1, exOverlapMention2,
      exOverlapTok1, exOverlapTok2, List.head?, List.getLast?, Option.bind, bind, pure]
    norm_num
  · decide

/-- C4 amended: with the feed target range [10, 22) and candidate
mentions spanning [10, 20) and [10, 25) in that order, best-overlap
selection by Jaccard interval score returns the FIRST candidate, whose
score 10/12 exceeds the second's 12/15. -/
theorem C4_best_overlap_first_candidate :
    find_best_mention_overlap [exOverlapMention1, exOverlapMention2] 10 22 =
        some exOverlapMention1 ∧
      get_coverage_score (10, 20) (10, 22) = 5 / 6 ∧
      get_coverage_score (10, 25) (10, 22) = 4 / 5 := by
  refine ⟨?_, ?_, ?_⟩
  · simp only [find_best_mention_overlap, mention_range, get_coverage_score,
      List.mapM_cons, List.mapM_nil, exOverlapMention1, exOverlapMention2,
      exOverlapTok1, exOverlapTok2, List.head?, List.getLast?, Option.bind, bind, pure]
    norm_num
  · simp only [get_coverage_score]
    norm_num
  · simp only [get_coverage_score]
    norm_num

/-- C5 counterexample: the claim asserts the coverage score is bounded in
[0, 1] for every pair of integer ranges with positive union length, yet
for the disjoint ranges [0, 1) and [5, 6) (union length 6) the score is
(1 - 5) / 6 = -2/3, which is negative. -/
theorem C5_coverage_score_counterexample :
    ¬ (0 ≤ get_coverage_score (0, 1) (5, 6) ∧ get_coverage_score (0, 1) (5, 6) ≤ 1) := by
  simp only [get_coverage_score]
  norm_num

/-- C5 amended: for every pair of integer ranges whose union has positive
length, the Jaccard coverage score is symmetric in its two arguments and
is at most 1; for two identical ranges it equals exactly 1; and for
disjoint ranges with positive gap it is <= 0 (hence the lower bound 0 of
the claimed [0, 1] interval does not hold in general). -/
theorem C5_coverage_score_amended (range1 range2 : Int × Int)
    (hU : 0 < max range1.2 range2.2 - min range1.1 range2.1) :
    get_coverage_score range1 range2 = get_coverage_score range2 range1 ∧
      get_coverage_score range1 range2 ≤ 1 ∧
      (range1 = range2 → get_coverage_score range1 range2 = 1) ∧
      (range1.2 < range2.1 → get_coverage_score range1 range2 ≤ 0) := by
  have hUq : (0 : ℚ) < ((max range1.2 range2.2 - min range1.1 range2.1 : Int) : ℚ) := by
    exact_mod_cast hU
  refine ⟨?_, ?_, ?_, ?_⟩
  · simp only [get_coverage_score, max_comm range1.1 range2.1, min_comm range1.2 range2.2,
      min_comm range1.1 range2.1, max_comm range1.2 range2.2]
  · simp only [get_coverage_score]
    rw [div_le_one hUq]
    have hnum : (min range1.2 range2.2 - max range1.1 range2.1 : Int) ≤
        max range1.2 range2.2 - min range1.1 range2.1 := by
      have h1 : min range1.2 range2.2 ≤ max range1.2 range2.2 := min_le_max
      have h2 : min range1.1 range2.1 ≤ max range1.1 range2.1 := min_le_max
      omega
    exact_mod_cast hnum
  · intro heq
    subst heq
    have hpos : (0 : ℚ) < ((range1.2 - range1.1 : Int) : ℚ) := by
      simpa using hUq
    simp only [get_coverage_score, max_self, min_self]
    rw [div_self (ne_of_gt hpos)]
  · intro hlt
    simp only [get_coverage_score]
    apply div_nonpos_of_nonpos_of_nonneg
    · have hnum : (min range1.2 range2.2 - max range1.1 range2.1 : Int) ≤ 0 := by
        have h1 : min range1.2 range2.2 ≤ range1.2 := min_le_left _ _
        have h2 : range2.1 ≤ max range1.1 range2.1 := le_max_right _ _
        omega
      exact_mod_cast hnum
    · exact le_of_lt hUq

/-- Witness for the amended C5 at the overlapping ranges [0, 2) and
[1, 3): union length 3 is positive, and the properties follow from the
theorem. -/
theorem C5_coverage_score_amended_witness :
    (0 : Int) < max 2 3 - min 0 1 ∧
      (get_coverage_score (0, 2) (1, 3) = get_coverage_score (1, 3) (0, 2) ∧
        get_coverage_score (0, 2) (1, 3) ≤ 1 ∧
        ((0, 2) = ((1, 3) : Int × Int) → get_coverage_score (0, 2) (1, 3) = 1) ∧
        ((2 : Int) < 1 → get_coverage_score (0, 2) (1, 3) ≤ 0)) :=
  ⟨by decide, C5_coverage_score_amended (0, 2) (1, 3) (by decide)⟩

/-! ## Construction-time configuration and input checks (C9, C10) -/

/-- C9: for every construction in which the dependency-representation
configuration value is not one of the three recognized kinds ('basic',
'collapsed', 'collapsed-ccprocessed'), the constructor raises the
configuration error before any markup parsing proceeds: the result is
the invalidDependencies error uniformly in the markup and feed inputs,
so no sentence is ever read. -/
theorem C9_invalid_dependency_kind_fatal (cfg : Config) (xml : Option StanfordInput)
    (aida : Option AidaInput) (h : cfg.dependencies ∉ LEGAL_DEPENDENCY_TYPES) :
    AnnotatedText_init cfg xml aida = Except.error InitError.invalidDependencies := by
  unfold AnnotatedText_init
  rw [if_pos h]

/-- Witness for C9: the misspelled kind "collapse" is rejected before any
parsing, markup input notwithstanding. -/
theorem C9_invalid_dependency_kind_fatal_witness :
    ({ exCfg with dependencies := "collapse" } : Config).dependencies ∉
        LEGAL_DEPENDENCY_TYPES ∧
      AnnotatedText_init { exCfg with dependencies := "collapse" } (some exStanford) none =
        Except.error InitError.invalidDependencies :=
  ⟨by decide,
    C9_invalid_dependency_kind_fatal { exCfg with dependencies := "collapse" }
      (some exStanford) none (by decide)⟩

/-- C10: supplying an AIDA json feed without CoreNLP markup raises an
error at construction, and the feed is never read: for every recognized
dependency kind and EVERY feed content the constructor returns the
aidaWithoutXml error, so the result never depends on the feed; the feed
branch of the source is reachable only inside the markup-present
branch. -/
theorem C10_aida_requires_xml (cfg : Config) (aida : AidaInput)
    (h : cfg.dependencies ∈ LEGAL_DEPENDENCY_TYPES) :
    AnnotatedText_init cfg none (some aida) = Except.error InitError.aidaWithoutXml := by
  unfold AnnotatedText_init
  rw [if_neg (by simpa using h)]

/-- Witness for C10: an AIDA feed without markup is rejected. -/
theorem C10_aida_requires_xml_witness :
    exCfg.dependencies ∈ LEGAL_DEPENDENCY_TYPES ∧
      AnnotatedText_init exCfg none
          (some { mentions := [], entityMetadata := [] }) =
        Except.error InitError.aidaWithoutXml :=
  ⟨by decide,
    C10_aida_requires_xml exCfg { mentions := [], entityMetadata := [] } (by decide)⟩

/-! ## Coreference normalization invariants (C6, C7, C8) -/

theorem read_coreference_mention_inv {sentences : List (List Tok)} {cfg : Config}
    {st st1 : List Mention × Option Mention} {tag : MentionTag}
    (hinv : ∀ m, st.2 = some m → m ∈ st.1)
    (h : read_coreference_mention sentences cfg st tag = Except.ok st1) :
    ∀ m, st1.2 = some m → m ∈ st1.1 := by
  cases hs : pyGet sentences (tag.sentence - 1) with
  | none =>
    simp only [read_coreference_mention, hs, except_error_bind] at h
    cases h
  | some sentence =>
    cases hh : pyGet sentence (tag.headword - 1) with
    | none =>
      simp only [read_coreference_mention, hs, hh, except_pure, except_ok_bind,
        except_error_bind] at h
      cases h
    | some head =>
      simp only [read_coreference_mention, hs, hh, except_pure, except_ok_bind,
        except_error_bind] at h
      split_ifs at h with hex hrep
      · cases h
        exact hinv
      · cases h
        intro m hm
        dsimp only at hm ⊢
        cases hm
        exact List.mem_append.mpr (Or.inr (by simp))
      · cases h
        intro m hm
        dsimp only at hm ⊢
        exact List.mem_append.mpr (Or.inl (hinv m hm))

theorem read_coreference_chain_wf {sentences : List (List Tok)} {cfg : Config} {cid : Int}
    {ctag : List MentionTag} {c : Reference}
    (h : read_coreference_chain sentences cfg cid ctag = Except.ok (some c)) :
    ReferenceWF c := by
  simp only [read_coreference_chain] at h
  cases hst : ctag.foldlM (read_coreference_mention sentences cfg) ([], none) with
  | error e => rw [hst, except_error_bind] at h; cases h
  | ok st =>
    rw [hst, except_ok_bind] at h
    have hinv : ∀ m, st.2 = some m → m ∈ st.1 := by
      refine foldlM_except_inv (fun st0 => ∀ m, st0.2 = some m → m ∈ st0.1) ?_ ?_ hst
      · intro t x t1 _ ht hstep
        exact read_coreference_mention_inv ht hstep
      · intro m hm
        cases hm
    cases hst1 : st.1 with
    | nil =>
      rw [hst1] at h
      simp only [except_pure] at h
      cases h
    | cons m ms =>
      rw [hst1] at h
      simp only [except_pure] at h
      cases h
      refine ⟨by simp, ?_⟩
      simp only
      cases hrep : st.2 with
      | none => simp
      | some r =>
        simp only [Option.getD_some]
        have hr := hinv r hrep
        rw [hst1] at hr
        exact hr

theorem build_chains_wf {sentences : List (List Tok)} {cfg : Config}
    {ctags : List (List MentionTag)} {acc0 st : List Reference × Int}
    (h0 : ∀ c ∈ acc0.1, ReferenceWF c)
    (h : ctags.foldlM
        (fun (acc : List Reference × Int) ctag => do
          let r ← read_coreference_chain sentences cfg acc.2 ctag
          pure (match r with | none => acc.1 | some c => acc.1 ++ [c], acc.2 + 1))
        acc0 = Except.ok st) :
    ∀ c ∈ st.1, ReferenceWF c := by
  refine foldlM_except_inv (fun acc => ∀ c ∈ acc.1, ReferenceWF c) ?_ h0 h
  intro t ctag t1 _ ht hstep
  cases hr : read_coreference_chain sentences cfg t.2 ctag with
  | error e => rw [hr, except_error_bind] at hstep; cases hstep
  | ok ro =>
    rw [hr, except_ok_bind, except_pure] at hstep
    cases hstep
    cases ro with
    | none => exact ht
    | some c =>
      intro c1 hc1
      dsimp only at hc1
      rcases List.mem_append.mp hc1 with h1 | h1
      · exact ht c1 h1
      · rcases List.mem_singleton.mp h1 with rfl
        exact read_coreference_chain_wf hr

theorem promote_novel_foldl_sub {entities : List Mention} :
    ∀ (sigs : List (Int × Int)) (acc : List Reference × Int) (r : Reference),
      r ∈ acc.1 → r ∈ (sigs.foldl (promote_novel entities) acc).1 := by
  intro sigs
  induction sigs with
  | nil => intro acc r hr; exact hr
  | cons s sigs ih =>
    intro acc r hr
    rw [List.foldl_cons]
    apply ih
    unfold promote_novel
    cases ner_entity_lookup entities s with
    | none => exact hr
    | some e => exact List.mem_append.mpr (Or.inl hr)

theorem promote_novel_foldl_mem {entities : List Mention} :
    ∀ (sigs : List (Int × Int)) (acc : List Reference × Int) (s : Int × Int) (e : Mention),
      s ∈ sigs → ner_entity_lookup entities s = some e →
      ∃ r ∈ (sigs.foldl (promote_novel entities) acc).1, r.mentions = [e] := by
  intro sigs
  induction sigs with
  | nil => intro acc s e hs; simp at hs
  | cons s0 sigs ih =>
    intro acc s e hs hlook
    rw [List.foldl_cons]
    rcases List.mem_cons.mp hs with rfl | hs1
    · have hmem : ({ id := acc.2, mentions := [e], representative := e,
                     kbIdentifier := none, types := none } : Reference) ∈
          (sigs.foldl (promote_novel entities) (promote_novel entities acc s)).1 := by
        apply promote_novel_foldl_sub
        unfold promote_novel
        rw [hlook]
        exact List.mem_append.mpr (Or.inr (by simp))
      exact ⟨_, hmem, rfl⟩
    · exact ih _ s e hs1 hlook

theorem promote_novel_foldl_wf {entities : List Mention} :
    ∀ (sigs : List (Int × Int)) (acc : List Reference × Int),
      (∀ r ∈ acc.1, ReferenceWF r) →
      ∀ r ∈ (sigs.foldl (promote_novel entities) acc).1, ReferenceWF r := by
  intro sigs
  induction sigs with
  | nil => intro acc h; exact h
  | cons s sigs ih =>
    intro acc h
    rw [List.foldl_cons]
    apply ih
    unfold promote_novel
    cases ner_entity_lookup entities s with
    | none => exact h
    | some e =>
      intro r hr
      rcases List.mem_append.mp hr with h1 | h1
      · exact h r h1
      · rcases List.mem_singleton.mp h1 with rfl
        exact ⟨by simp, by simp⟩

theorem standardize_wf {b : Bool} {entities : List Mention} {corefs : List Reference}
    {nid : Int} (hc : ∀ c ∈ corefs, ReferenceWF c) :
    ∀ r ∈ (standardize_coreferencing b entities corefs nid).1, ReferenceWF r := by
  unfold standardize_coreferencing
  apply promote_novel_foldl_wf
  cases b with
  | false => simpa using hc
  | true =>
    simp only [if_true]
    intro r hr
    obtain ⟨s, _, hlook⟩ := List.mem_filterMap.mp hr
    have hne : (corefs.filter (fun c => mention_sig c.representative = some s)) ≠ [] := by
      intro hnil
      rw [hnil] at hlook
      cases hlook
    obtain ⟨y, hy1, hy2⟩ := getLast?_mem_of_ne_nil hne
    rw [hy1] at hlook
    cases hlook
    exact hc r (List.mem_of_mem_filter hy2)

theorem link_mention_extent_shape {m m1 : Mention} (h : link_mention_extent m = Except.ok m1) :
    ∃ a b, pyMinList (m.tokens.map Tok.id) = some a ∧
      pyMaxList (m.tokens.map Tok.id) = some b ∧
      m1 = { m with start := some a, stop := some b } := by
  unfold link_mention_extent at h
  cases ha : pyMinList (m.tokens.map Tok.id) with
  | none => rw [ha] at h; cases hb : pyMaxList (m.tokens.map Tok.id) <;> rw [hb] at h <;> cases h
  | some a =>
    cases hb : pyMaxList (m.tokens.map Tok.id) with
    | none => rw [ha, hb] at h; cases h
    | some b =>
      rw [ha, hb] at h
      cases h
      exact ⟨a, b, rfl, rfl, rfl⟩

theorem link_mention_extent_ok {m m1 : Mention} (h : link_mention_extent m = Except.ok m1) :
    MentionExtentOK m1 ∧ m1.tokens = m.tokens ∧ m1.sentence_id = m.sentence_id := by
  obtain ⟨a, b, ha, hb, rfl⟩ := link_mention_extent_shape h
  obtain ⟨ha1, ha2⟩ := pyMinList_spec ha
  obtain ⟨hb1, hb2⟩ := pyMaxList_spec hb
  exact ⟨⟨a, b, rfl, rfl, ha1, ha2, hb1, hb2⟩, rfl, rfl⟩

theorem link_references_wf {refs refs1 : List Reference}
    (h : link_references refs = Except.ok refs1) (hwf : ∀ r ∈ refs, ReferenceWF r) :
    ∀ r1 ∈ refs1, ReferenceWF r1 := by
  intro r1 hr1
  obtain ⟨r, hr, hfr⟩ := mapM_except_ok_rev h hr1
  cases hms : r.mentions.mapM link_mention_extent with
  | error e => simp only [hms, except_error_bind] at hfr; cases hfr
  | ok ms =>
    simp only [hms, except_ok_bind] at hfr
    cases hrep : link_mention_extent r.representative with
    | error e => rw [hrep, except_error_bind] at hfr; cases hfr
    | ok rep1 =>
      rw [hrep, except_ok_bind, except_pure] at hfr
      cases hfr
      obtain ⟨hne, hmem⟩ := hwf r hr
      constructor
      · exact mapM_except_ok_ne_nil hms hne
      · exact mapM_except_ok_mem_of hms hmem hrep

theorem link_references_extents {refs refs1 : List Reference}
    (h : link_references refs = Except.ok refs1) :
    ∀ r1 ∈ refs1, ∀ m ∈ r1.mentions, MentionExtentOK m := by
  intro r1 hr1 m hm
  obtain ⟨r, _, hfr⟩ := mapM_except_ok_rev h hr1
  cases hms : r.mentions.mapM link_mention_extent with
  | error e => simp only [hms, except_error_bind] at hfr; cases hfr
  | ok ms =>
    simp only [hms, except_ok_bind] at hfr
    cases hrep : link_mention_extent r.representative with
    | error e => rw [hrep, except_error_bind] at hfr; cases hfr
    | ok rep1 =>
      rw [hrep, except_ok_bind, except_pure] at hfr
      cases hfr
      obtain ⟨m0, _, hfm⟩ := mapM_except_ok_rev hms hm
      exact (link_mention_extent_ok hfm).1

theorem mention_token_pairs_of_mem {refs : List Reference} {r : Reference} {m : Mention}
    {t : Tok} (hr : r ∈ refs) (hm : m ∈ r.mentions) (ht : t ∈ m.tokens) :
    (m.sentence_id, t.id) ∈ mention_token_pairs refs := by
  unfold mention_token_pairs
  rw [List.mem_flatMap]
  refine ⟨r, hr, ?_⟩
  rw [List.mem_flatMap]
  exact ⟨m, hm, List.mem_map.mpr ⟨t, ht, rfl⟩⟩

theorem mention_token_pairs_elim {refs : List Reference} {sig : Int × Int}
    (h : sig ∈ mention_token_pairs refs) :
    ∃ r ∈ refs, ∃ m ∈ r.mentions, ∃ t ∈ m.tokens, sig = (m.sentence_id, t.id) := by
  unfold mention_token_pairs at h
  rw [List.mem_flatMap] at h
  obtain ⟨r, hr, h1⟩ := h
  rw [List.mem_flatMap] at h1
  obtain ⟨m, hm, h2⟩ := h1
  obtain ⟨t, ht, h3⟩ := List.mem_map.mp h2
  exact ⟨r, hr, m, hm, t, ht, h3.symm⟩

theorem link_references_pairs {refs refs1 : List Reference}
    (h : link_references refs = Except.ok refs1) {sig : Int × Int}
    (hsig : sig ∈ mention_token_pairs refs) : sig ∈ mention_token_pairs refs1 := by
  obtain ⟨r, hr, m, hm, t, ht, rfl⟩ := mention_token_pairs_elim hsig
  obtain ⟨r1, hr1, hfr⟩ := mapM_except_ok_mem h hr
  cases hms : r.mentions.mapM link_mention_extent with
  | error e => simp only [hms, except_error_bind] at hfr; cases hfr
  | ok ms =>
    simp only [hms, except_ok_bind] at hfr
    cases hrep : link_mention_extent r.representative with
    | error e => rw [hrep, except_error_bind] at hfr; cases hfr
    | ok rep1 =>
      rw [hrep, except_ok_bind, except_pure] at hfr
      cases hfr
      obtain ⟨m1, hm1, hfm⟩ := mapM_except_ok_mem hms hm
      obtain ⟨_, htk, hsid⟩ := link_mention_extent_ok hfm
      have := mention_token_pairs_of_mem hr1 hm1 (by rw [htk]; exact ht)
      rw [hsid] at this
      exact this

theorem read_entities_head_mem {b : Bool} {toks : List Tok} {e : Mention}
    (he : e ∈ read_entities b toks) : ∀ h, e.head = some h → h ∈ e.tokens := by
  unfold read_entities at he
  obtain ⟨sp, _, hmap⟩ := List.mem_filterMap.mp he
  cases hfh : find_head sp.1 with
  | none => rw [hfh] at hmap; cases hmap
  | some h0 =>
    rw [hfh] at hmap
    simp only [Option.map_some'] at hmap
    cases hmap
    intro h hh
    simp only [Option.some.injEq] at hh
    cases hh
    exact find_head_mem hfh

theorem standardize_covered {entities : List Mention} {corefs : List Reference} {nid : Int}
    (hent : ∀ e ∈ entities, ∀ hd, e.head = some hd → hd ∈ e.tokens) :
    ∀ e ∈ entities, ∀ hd, e.head = some hd →
      (e.sentence_id, hd.id) ∈
        mention_token_pairs (standardize_coreferencing false entities corefs nid).1 := by
  intro e he hd hhd
  have hsig : mention_sig e = some (e.sentence_id, hd.id) := by
    unfold mention_sig
    rw [hhd]
    rfl
  by_cases hmem : (e.sentence_id, hd.id) ∈ mention_token_pairs corefs
  · obtain ⟨r, hr, m, hm, t, ht, heq⟩ := mention_token_pairs_elim hmem
    unfold standardize_coreferencing
    have hrsub : r ∈ (((entities.filterMap mention_sig).dedup.filter
        (fun s => s ∉ mention_token_pairs corefs)).foldl (promote_novel entities)
          (corefs, nid)).1 := by
      apply promote_novel_foldl_sub
      exact hr
    rw [heq]
    exact mention_token_pairs_of_mem hrsub hm ht
  · unfold standardize_coreferencing
    have hnov : (e.sentence_id, hd.id) ∈ (entities.filterMap mention_sig).dedup.filter
        (fun s => s ∉ mention_token_pairs corefs) := by
      rw [List.mem_filter]
      constructor
      · rw [List.mem_dedup]
        exact List.mem_filterMap.mpr ⟨e, he, hsig⟩
      · simpa using hmem
    have hne : (entities.filter (fun e1 => mention_sig e1 = some (e.sentence_id, hd.id))) ≠
        [] := by
      intro hnil
      have : e ∈ entities.filter (fun e1 => mention_sig e1 = some (e.sentence_id, hd.id)) := by
        rw [List.mem_filter]
        exact ⟨he, by simp [hsig]⟩
      rw [hnil] at this
      cases this
    obtain ⟨y, hy1, hy2⟩ := getLast?_mem_of_ne_nil hne
    have hlook : ner_entity_lookup entities (e.sentence_id, hd.id) = some y := by
      unfold ner_entity_lookup
      exact hy1
    obtain ⟨r, hrmem, hrm⟩ := promote_novel_foldl_mem _ (corefs, nid) _ y hnov hlook
    rw [List.mem_filter] at hy2
    have hysig : mention_sig y = some (e.sentence_id, hd.id) := by
      have := hy2.2
      simpa using this
    unfold mention_sig at hysig
    cases hyh : y.head with
    | none => rw [hyh] at hysig; cases hysig
    | some hy =>
      rw [hyh] at hysig
      simp only [Option.map_some', Option.some.injEq, Prod.mk.injEq] at hysig
      have hymem : hy ∈ y.tokens := hent y hy2.1 hy hyh
      have hy_in_r : y ∈ r.mentions := by
        rw [hrm]
        simp
      have hpair := mention_token_pairs_of_mem hrmem hy_in_r hymem
      rw [hysig.1, hysig.2] at hpair
      exact hpair

theorem build_coreferences_shape {sentences : List (List Tok)} {cfg : Config}
    {ctags : List (List MentionTag)} {entities : List Mention} {nid : Int}
    {res : List Reference × Int}
    (h : build_coreferences sentences cfg ctags entities nid = Except.ok res) :
    ∃ st : List Reference × Int, (∀ c ∈ st.1, ReferenceWF c) ∧
      res = standardize_coreferencing cfg.exclude_non_ner_coreferences entities st.1 st.2 := by
  simp only [build_coreferences] at h
  cases hst : ctags.foldlM
      (fun (acc : List Reference × Int) ctag => do
        let r ← read_coreference_chain sentences cfg acc.2 ctag
        pure (match r with | none => acc.1 | some c => acc.1 ++ [c], acc.2 + 1))
      ([], nid) with
  | error e => rw [hst, except_error_bind] at h; cases h
  | ok st =>
    rw [hst, except_ok_bind, except_pure] at h
    cases h
    refine ⟨st, ?_, rfl⟩
    exact build_chains_wf (by intro c hc; cases hc) hst

theorem read_sentence_entities {cfg : Config} {stag : SentenceTag} {s : Sentence}
    (h : read_sentence cfg stag = Except.ok s) :
    s.entities = read_entities cfg.exclude_ordinal_NERs (read_tokens (stag.id - 1) stag.tokens) := by
  simp only [read_sentence] at h
  by_cases h1 : cfg.dependencies = "collapsed-ccprocessed"
  · rw [if_pos h1, except_pure, except_ok_bind] at h
    cases hopt : stag.ccprocessed_deps with
    | none => simp only [hopt, except_error_bind] at h; cases h
    | some dl =>
      simp only [hopt, except_pure, except_ok_bind] at h
      cases hg : read_dependencies (read_tokens (stag.id - 1) stag.tokens).length dl with
      | error e => rw [hg, except_error_bind] at h; cases h
      | ok g =>
        rw [hg, except_ok_bind] at h
        cases h
        rfl
  · rw [if_neg h1] at h
    by_cases h2 : cfg.dependencies = "collapsed"
    · rw [if_pos h2, except_pure, except_ok_bind] at h
      cases hopt : stag.collapsed_deps with
      | none => simp only [hopt, except_error_bind] at h; cases h
      | some dl =>
        simp only [hopt, except_pure, except_ok_bind] at h
        cases hg : read_dependencies (read_tokens (stag.id - 1) stag.tokens).length dl with
        | error e => rw [hg, except_error_bind] at h; cases h
        | ok g =>
          rw [hg, except_ok_bind] at h
          cases h
          rfl
    · rw [if_neg h2] at h
      by_cases h3 : cfg.dependencies = "basic"
      · rw [if_pos h3, except_pure, except_ok_bind] at h
        cases hopt : stag.basic_deps with
        | none => simp only [hopt, except_error_bind] at h; cases h
        | some dl =>
          simp only [hopt, except_pure, except_ok_bind] at h
          cases hg : read_dependencies (read_tokens (stag.id - 1) stag.tokens).length dl with
          | error e => rw [hg, except_error_bind] at h; cases h
          | ok g =>
            rw [hg, except_ok_bind] at h
            cases h
            rfl
      · rw [if_neg h3, except_error_bind] at h
        cases h

theorem read_stanford_xml_props {cfg : Config} {x : StanfordInput} {d : Doc}
    (h : read_stanford_xml cfg x = Except.ok d) :
    DocRefsWF d ∧ DocExtentsOK d ∧
      (cfg.exclude_non_ner_coreferences = false → DocEntitiesCovered d) := by
  simp only [read_stanford_xml] at h
  cases hs : x.sentence_tags.mapM (read_sentence cfg) with
  | error e => rw [hs, except_error_bind] at h; cases h
  | ok sents =>
    rw [hs, except_ok_bind] at h
    cases hb : build_coreferences (sents.map (fun s => s.tokens)) cfg x.coref_tags
        (sents.flatMap (fun s => s.entities)) 0 with
    | error e => rw [hb, except_error_bind] at h; cases h
    | ok built =>
      rw [hb, except_ok_bind] at h
      cases hl : link_references built.1 with
      | error e => rw [hl, except_error_bind] at h; cases h
      | ok refs =>
        rw [hl, except_ok_bind, except_pure] at h
        cases h
        obtain ⟨st, hstwf, hres⟩ := build_coreferences_shape hb
        have hbuiltwf : ∀ r ∈ built.1, ReferenceWF r := by
          rw [hres]
          exact standardize_wf hstwf
        refine ⟨?_, ?_, ?_⟩
        · intro r hr
          exact link_references_wf hl hbuiltwf r hr
        · intro r hr m hm
          exact link_references_extents hl r hr m hm
        · intro hflag s hsent e he hd hhd
          have hent : ∀ e1 ∈ sents.flatMap (fun s1 => s1.entities),
              ∀ hd1, e1.head = some hd1 → hd1 ∈ e1.tokens := by
            intro e1 he1 hd1 hhd1
            obtain ⟨s1, hs1, he1s⟩ := List.mem_flatMap.mp he1
            obtain ⟨stag, _, hread⟩ := mapM_except_ok_rev hs hs1
            rw [read_sentence_entities hread] at he1s
            exact read_entities_head_mem he1s hd1 hhd1
          have hecov : e ∈ sents.flatMap (fun s1 => s1.entities) :=
            List.mem_flatMap.mpr ⟨s, hsent, he⟩
          have hsig := @standardize_covered (sents.flatMap (fun s1 => s1.entities)) st.1 st.2
            hent e hecov hd hhd
          have : built = standardize_coreferencing false
              (sents.flatMap (fun s1 => s1.entities)) st.1 st.2 := by
            rw [hres, hflag]
          rw [← this] at hsig
          exact link_references_pairs hl hsig

/-! ## AIDA linking preserves the document invariants -/

theorem aidaStepOK_refl (d : Doc) : AidaStepOK d d :=
  ⟨rfl, fun h => h, fun h => h, fun _ h => h⟩

theorem aidaStepOK_trans {d0 d1 d2 : Doc} (h1 : AidaStepOK d0 d1) (h2 : AidaStepOK d1 d2) :
    AidaStepOK d0 d2 :=
  ⟨h2.1.trans h1.1, fun h => h2.2.1 (h1.2.1 h), fun h => h2.2.2.1 (h1.2.2.1 h),
    fun sig hs => h2.2.2.2 sig (h1.2.2.2 sig hs)⟩

theorem doc_update_mention_stepOK {d : Doc} {m0 m1 : Mention}
    (htok : m1.tokens = m0.tokens) (hsid : m1.sentence_id = m0.sentence_id)
    (hstart : m1.start = m0.start) (hstop : m1.stop = m0.stop) :
    AidaStepOK d (doc_update_mention d m0 m1) := by
  refine ⟨rfl, ?_, ?_, ?_⟩
  · intro hwf r1 hr1
    obtain ⟨r, hr, rfl⟩ := List.mem_map.mp hr1
    obtain ⟨hne, hmem⟩ := hwf r hr
    constructor
    · simpa using hne
    · simp only
      rcases eq_or_ne r.representative m0 with hrep | hrep
    
      · rw [if_pos hrep]
        exact List.mem_map.mpr ⟨r.representative, hmem, by rw [if_pos hrep]⟩
      · rw [if_neg hrep]
        exact List.mem_map.mpr ⟨r.representative, hmem, by rw [if_neg hrep]⟩
  · intro hext r1 hr1 m hm
    obtain ⟨r, hr, rfl⟩ := List.mem_map.mp hr1
    simp only at hm
    obtain ⟨m2, hm2, rfl⟩ := List.mem_map.mp hm
    have hbase := hext r hr m2 hm2
    rcases eq_or_ne m2 m0 with rfl | hne2
    · rw [if_pos rfl]
      obtain ⟨a, b, h1, h2, h3, h4, h5, h6⟩ := hbase
      exact ⟨a, b, by rw [hstart]; exact h1, by rw [hstop]; exact h2,
        by rw [htok]; exact h3, by rw [htok]; exact h4,
        by rw [htok]; exact h5, by rw [htok]; exact h6⟩
    · rw [if_neg hne2]
      exact hbase
  · intro sig hsig
    obtain ⟨r, hr, m, hm, t, ht, rfl⟩ := mention_token_pairs_elim hsig
    have hr1 : { r with
        mentions := r.mentions.map (fun mm => if mm = m0 then m1 else mm),
        representative := if r.representative = m0 then m1 else r.representative } ∈
        (doc_update_mention d m0 m1).references := by
      unfold doc_update_mention
      simp only
      exact List.mem_map.mpr ⟨r, hr, rfl⟩
    rcases eq_or_ne m m0 with he | hne2
    · have hm1 : m1 ∈ (r.mentions.map (fun mm => if mm = m0 then m1 else mm)) :=
        List.mem_map.mpr ⟨m, hm, by rw [if_pos he]⟩
      have hpair := mention_token_pairs_of_mem hr1 hm1 (by rw [htok, ← he]; exact ht)
      have hss : m1.sentence_id = m.sentence_id := by rw [hsid, ← he]
      rw [← hss]
      exact hpair
    · have hm1 : m ∈ (r.mentions.map (fun mm => if mm = m0 then m1 else mm)) :=
        List.mem_map.mpr ⟨m, hm, by rw [if_neg hne2]⟩
      exact mention_token_pairs_of_mem hr1 hm1 ht

theorem find_or_create_from_scan_refs {found_tokens : List Tok} {mentions : List Mention}
    {start stop nid : Int} {r : Reference}
    (hr : r ∈ (find_or_create_mention_from_scan found_tokens mentions start stop nid).2.1) :
    ReferenceWF r ∧ ∀ m ∈ r.mentions, MentionExtentOK m := by
  cases found_tokens with
  | nil => simp only [find_or_create_mention_from_scan, List.not_mem_nil] at hr
  | cons t0 ts =>
    simp only [find_or_create_mention_from_scan] at hr
    by_cases h1 : mentions.length = 1
    · rw [if_pos h1] at hr
      simp at hr
    · rw [if_neg h1] at hr
      by_cases h2 : 0 < mentions.length
      · rw [if_pos h2] at hr
        simp at hr
      · rw [if_neg h2] at hr
        simp only [List.mem_singleton] at hr
        subst hr
        refine ⟨⟨by simp, by simp⟩, ?_⟩
        intro m hm
        simp only [List.mem_singleton] at hm
        subst hm
        obtain ⟨a, ha⟩ : ∃ a, pyMinList ((t0 :: ts).map Tok.id) = some a := ⟨_, rfl⟩
        obtain ⟨b, hb⟩ : ∃ b, pyMaxList ((t0 :: ts).map Tok.id) = some b := ⟨_, rfl⟩
        obtain ⟨ha1, ha2⟩ := pyMinList_spec ha
        obtain ⟨hb1, hb2⟩ := pyMaxList_spec hb
        exact ⟨a, b, ha, hb, ha1, ha2, hb1, hb2⟩

theorem find_or_create_stepOK {d : Doc} {start length : Int} {optM : Option Mention}
    {d1 : Doc} (h : find_or_create_mention_by_offset_range d start length =
      Except.ok (optM, d1)) : AidaStepOK d d1 := by
  simp only [find_or_create_mention_by_offset_range] at h
  cases hscan : scan_offset_range d start (start + length) with
  | error e => rw [hscan, except_error_bind] at h; cases h
  | ok scanned =>
    rw [hscan, except_ok_bind, except_pure] at h
    cases h
    refine ⟨rfl, ?_, ?_, ?_⟩
    · intro hwf r hr
      simp only at hr
      rcases List.mem_append.mp hr with h1 | h1
      · exact hwf r h1
      · exact (find_or_create_from_scan_refs h1).1
    · intro hext r hr m hm
      simp only at hr
      rcases List.mem_append.mp hr with h1 | h1
      · exact hext r h1 m hm
      · exact (find_or_create_from_scan_refs h1).2 m hm
    · intro sig hsig
      obtain ⟨r, hr, m, hm, t, ht, rfl⟩ := mention_token_pairs_elim hsig
      exact mention_token_pairs_of_mem (List.mem_append.mpr (Or.inl hr)) hm ht

theorem link_aida_mention_stepOK {d : Doc} {am : AidaMentionIn}
    {meta : List (String × List String)} {d1 : Doc}
    (h : link_aida_mention d am meta = Except.ok d1) : AidaStepOK d d1 := by
  simp only [link_aida_mention] at h
  cases hbe : am.bestEntity with
  | none =>
    simp only [hbe, except_pure] at h
    cases h
    exact aidaStepOK_refl d
  | some be =>
    simp only [hbe] at h
    cases hmeta : entity_metadata_types meta be.kbIdentifier with
    | none =>
      simp only [hmeta, except_pure] at h
      cases h
      exact aidaStepOK_refl d
    | some tys =>
      simp only [hmeta] at h
      cases hfind : find_or_create_mention_by_offset_range d am.offset am.length with
      | error e => rw [hfind, except_error_bind] at h; cases h
      | ok found =>
        rw [hfind, except_ok_bind] at h
        obtain ⟨optM, d2⟩ := found
        have hstep : AidaStepOK d d2 := find_or_create_stepOK hfind
        cases optM with
        | none =>
          simp only [except_pure] at h
          cases h
          exact hstep
        | some m =>
          simp only [except_pure] at h
          cases h
          exact aidaStepOK_trans hstep (doc_update_mention_stepOK rfl rfl rfl rfl)

theorem link_aida_reference_shape {r : Reference} {meta : List (String × List String)}
    {o : Option Reference} (h : link_aida_reference r meta = Except.ok o) :
    ∀ r1, o = some r1 → r1.mentions = r.mentions ∧ r1.representative = r.representative := by
  simp only [link_aida_reference] at h
  cases hk : link_aida_reference_kbid (r.mentions.filterMap (fun m =>
      match m.kbIdentifier, m.disambiguationScore with
      | some k, some s => some (k, s)
      | _, _ => none)) with
  | none =>
    simp only [hk, except_pure] at h
    cases h
    intro r1 hr1
    cases hr1
  | some kbId =>
    simp only [hk] at h
    cases hmeta : entity_metadata_types meta kbId with
    | none => simp only [hmeta] at h; cases h
    | some tys =>
      simp only [hmeta, except_pure] at h
      cases h
      intro r1 hr1
      cases hr1
      exact ⟨rfl, rfl⟩

theorem read_aida_json_stepOK {d : Doc} {a : AidaInput} {d2 : Doc}
    (h : read_aida_json d a = Except.ok d2) : AidaStepOK d d2 := by
  simp only [read_aida_json] at h
  cases hfold : a.mentions.foldlM
      (fun acc am => link_aida_mention acc am a.entityMetadata) d with
  | error e => rw [hfold, except_error_bind] at h; cases h
  | ok d1 =>
    rw [hfold, except_ok_bind] at h
    have hstep1 : AidaStepOK d d1 := by
      refine foldlM_except_inv (AidaStepOK d) ?_ (aidaStepOK_refl d) hfold
      intro t x t1 _ ht hx
      exact aidaStepOK_trans ht (link_aida_mention_stepOK hx)
    cases hupd : d1.references.mapM (fun r =>
        (link_aida_reference r a.entityMetadata).map (fun o => (r, o))) with
    | error e => rw [hupd, except_error_bind] at h; cases h
    | ok upd =>
      rw [hupd, except_ok_bind, except_pure] at h
      cases h
      refine aidaStepOK_trans hstep1 ⟨rfl, ?_, ?_, ?_⟩
      · intro hwf r1 hr1
        simp only at hr1
        obtain ⟨p, hp, rfl⟩ := List.mem_map.mp hr1
        obtain ⟨r0, hr0, hfr⟩ := mapM_except_ok_rev hupd hp
        cases hlo : link_aida_reference r0 a.entityMetadata with
        | error e => rw [hlo, except_map_error] at hfr; cases hfr
        | ok o =>
          rw [hlo, except_map_ok] at hfr
          cases hfr
          cases ho : o with
          | none =>
            simp only [Option.getD_none]
            exact hwf r0 hr0
          | some rr =>
            simp only [Option.getD_some]
            obtain ⟨hms, hrep⟩ := link_aida_reference_shape hlo rr ho
            obtain ⟨hne, hmem⟩ := hwf r0 hr0
            refine ⟨by rw [hms]; exact hne, ?_⟩
            rw [hms, hrep]
            exact hmem
      · intro hext r1 hr1 m hm
        simp only at hr1
        obtain ⟨p, hp, rfl⟩ := List.mem_map.mp hr1
        obtain ⟨r0, hr0, hfr⟩ := mapM_except_ok_rev hupd hp
        cases hlo : link_aida_reference r0 a.entityMetadata with
        | error e => rw [hlo, except_map_error] at hfr; cases hfr
        | ok o =>
          rw [hlo, except_map_ok] at hfr
          cases hfr
          cases ho : o with
          | none =>
            rw [ho] at hm
            simp only [Option.getD_none] at hm
            exact hext r0 hr0 m hm
          | some rr =>
            rw [ho] at hm
            simp only [Option.getD_some] at hm
            obtain ⟨hms, _⟩ := link_aida_reference_shape hlo rr ho
            rw [hms] at hm
            exact hext r0 hr0 m hm
      · intro sig hsig
        obtain ⟨r0, hr0, m, hm, t, ht, rfl⟩ := mention_token_pairs_elim hsig
        obtain ⟨p, hp, hfr⟩ := mapM_except_ok_mem hupd hr0
        cases hlo : link_aida_reference r0 a.entityMetadata with
        | error e => rw [hlo, except_map_error] at hfr; cases hfr
        | ok o =>
          rw [hlo, except_map_ok] at hfr
          cases hfr
          have hp1 : (r0, o).2.getD (r0, o).1 ∈ (upd.map (fun p => p.2.getD p.1)) :=
            List.mem_map.mpr ⟨(r0, o), hp, rfl⟩
          cases ho : o with
          | none =>
            rw [ho] at hp1
            simp only [Option.getD_none] at hp1
            exact mention_token_pairs_of_mem hp1 hm ht
          | some rr =>
            rw [ho] at hp1
            simp only [Option.getD_some] at hp1
            obtain ⟨hms, _⟩ := link_aida_reference_shape hlo rr ho
            exact mention_token_pairs_of_mem hp1 (by rw [hms]; exact hm) ht

theorem AnnotatedText_init_ok_cases {cfg : Config} {xml : Option StanfordInput}
    {aida : Option AidaInput} {d : Doc}
    (h : AnnotatedText_init cfg xml aida = Except.ok (some d)) :
    ∃ x d0, xml = some x ∧ read_stanford_xml cfg x = Except.ok d0 ∧
      ((aida = none ∧ d = d0) ∨ ∃ a, aida = some a ∧ read_aida_json d0 a = Except.ok d) := by
  simp only [AnnotatedText_init] at h
  by_cases hdep : cfg.dependencies ∉ LEGAL_DEPENDENCY_TYPES
  · rw [if_pos hdep] at h
    cases h
  · rw [if_neg hdep] at h
    cases hx : xml with
    | none =>
      simp only [hx] at h
      cases ha : aida with
      | none => rw [ha] at h; exact absurd h (by simp)
      | some a => rw [ha] at h; exact absurd h (by simp)
    | some x =>
      simp only [hx] at h
      cases hrs : read_stanford_xml cfg x with
      | error e => rw [hrs] at h; exact absurd h (by simp)
      | ok d0 =>
        simp only [hrs] at h
        cases ha : aida with
        | none =>
          simp only [ha] at h
          cases h
          exact ⟨x, _, rfl, hrs, Or.inl ⟨rfl, rfl⟩⟩
        | some a =>
          simp only [ha] at h
          cases hra : read_aida_json d0 a with
          | error e => rw [hra] at h; exact absurd h (by simp)
          | ok d1 =>
            simp only [hra] at h
            cases h
            exact ⟨x, d0, rfl, hrs, Or.inr ⟨a, rfl, hra⟩⟩

/-- C6: for every reference present in the constructed document's
reference list — whether originating from a tool-provided coreference
chain, from promotion of a novel entity span, or synthesized by the
external link reconciler — its mention list is non-empty and exactly one
of its mentions is designated as the representative (the representative
field holds one of the mentions).  Formally: every successful
construction, with or without an AIDA feed, yields a document all of
whose references satisfy ReferenceWF. -/
theorem C6_references_wellformed (cfg : Config) (xml : Option StanfordInput)
    (aida : Option AidaInput) (d : Doc)
    (h : AnnotatedText_init cfg xml aida = Except.ok (some d)) :
    ∀ r ∈ d.references, ReferenceWF r := by
  obtain ⟨x, d0, _, hrs, hrest⟩ := AnnotatedText_init_ok_cases h
  have h0 : DocRefsWF d0 := (read_stanford_xml_props hrs).1
  rcases hrest with ⟨_, rfl⟩ | ⟨a, _, hra⟩
  · exact h0
  · exact (read_aida_json_stepOK hra).2.1 h0

/-- Witness for C6: the example one-sentence document construction
succeeds and every reference of the resulting document is well
formed. -/
theorem C6_references_wellformed_witness :
    AnnotatedText_init exCfg (some exStanford) none = Except.ok (some exDoc) ∧
      ∀ r ∈ exDoc.references, ReferenceWF r :=
  ⟨rfl, C6_references_wellformed exCfg (some exStanford) none exDoc rfl⟩

/-- C7: for every mention belonging to a reference after document
construction (including mentions synthesized at external-link time), the
mention's start field equals the minimum token id over its token span
and its end field equals the maximum token id over its token span.
Formally: every successful construction yields a document all of whose
reference mentions satisfy MentionExtentOK (start/stop hold a member of
the token-id list that bounds it from below/above). -/
theorem C7_mention_extents (cfg : Config) (xml : Option StanfordInput)
    (aida : Option AidaInput) (d : Doc)
    (h : AnnotatedText_init cfg xml aida = Except.ok (some d)) :
    ∀ r ∈ d.references, ∀ m ∈ r.mentions, MentionExtentOK m := by
  obtain ⟨x, d0, _, hrs, hrest⟩ := AnnotatedText_init_ok_cases h
  have h0 : DocExtentsOK d0 := (read_stanford_xml_props hrs).2.1
  rcases hrest with ⟨_, rfl⟩ | ⟨a, _, hra⟩
  · exact h0
  · exact (read_aida_json_stepOK hra).2.2.1 h0

/-- Witness for C7: in the example document the single mention's start
and end both equal the id of its only token. -/
theorem C7_mention_extents_witness :
    AnnotatedText_init exCfg (some exStanford) none = Except.ok (some exDoc) ∧
      ∀ r ∈ exDoc.references, ∀ m ∈ r.mentions, MentionExtentOK m :=
  ⟨rfl, C7_mention_extents exCfg (some exStanford) none exDoc rfl⟩

/-- C8: for every document constructed with
exclude_non_ner_coreferences = false, the union over all references of
their mentions' (sentence id, token id) signatures is a superset of the
set of all entity-span signatures (sentence id, head-token id): every
extracted entity is covered by some reference, either via an existing
coreference chain or via promotion to a novel single-mention
reference. -/
theorem C8_entities_covered (cfg : Config) (xml : Option StanfordInput)
    (aida : Option AidaInput) (d : Doc)
    (h : AnnotatedText_init cfg xml aida = Except.ok (some d))
    (hflag : cfg.exclude_non_ner_coreferences = false) :
    DocEntitiesCovered d := by
  obtain ⟨x, d0, _, hrs, hrest⟩ := AnnotatedText_init_ok_cases h
  have h0 : DocEntitiesCovered d0 := (read_stanford_xml_props hrs).2.2 hflag
  rcases hrest with ⟨_, rfl⟩ | ⟨a, _, hra⟩
  · exact h0
  · have hstep := read_aida_json_stepOK hra
    intro s hs e he hd hhd
    rw [hstep.1] at hs
    exact hstep.2.2.2 _ (h0 s hs e he hd hhd)

/-- Witness for C8: in the example document the single PERSON entity's
signature (0, 0) occurs among the reference mention-token signatures. -/
theorem C8_entities_covered_witness :
    AnnotatedText_init exCfg (some exStanford) none = Except.ok (some exDoc) ∧
      exCfg.exclude_non_ner_coreferences = false ∧ DocEntitiesCovered exDoc :=
  ⟨rfl, rfl, C8_entities_covered exCfg (some exStanford) none exDoc rfl rfl⟩
